import Mathlib

/-!
# hopeserialchecker: SMBIOS table decoder and field extractors

A shallow embedding of `src/hardwareinfo.cpp` (class `hardwareinfo`).

* A `BYTE` is a natural number below 256; a byte buffer (`std::vector<BYTE>`)
  and a `std::string` are both lists of such numbers (`static_cast<char>` is
  the identity on the stored byte).
* Every read of the input buffer goes through `readbyte` / `readrange`, which
  answer `none` outside the buffer, so a decoder run that would touch memory
  past the end of the buffer evaluates to `none`.
* The three `while` loops of `parsesmbiosstructures` are recursive functions
  over an iteration budget; exhausting the budget also evaluates to `none`.
-/

namespace hardwareinfo

/-- Text of a C string literal as the list of its character codes. -/
def lit (s : String) : List Nat := s.toList.map Char.toNat

/-- The record `hardwareinfo::smbiosstructure` of `hardwareinfo.h`. -/
structure smbiosstructure where
  type : Nat
  length : Nat
  data : List Nat
  strings : List (List Nat)
deriving DecidableEq, Repr

/-- Checked `data[i]`: `none` when `i` is not an index of the buffer. -/
def readbyte (data : List Nat) (i : Nat) : Option Nat := data[i]?

/-- Checked `memcpy(dst, &data[offset], length)`: the bytes
`[offset, offset + length)`, `none` when the range leaves the buffer. -/
def readrange (data : List Nat) (offset length : Nat) : Option (List Nat) :=
  if offset + length ≤ data.length then some ((data.drop offset).take length) else none

/-- The innermost loop of `parsesmbiosstructures` (lines 61-64):
`while (stringoffset < end && data[stringoffset] != 0) { str += data[stringoffset]; stringoffset++; }`.
Returns the string read and the final `stringoffset`. -/
def readstring : Nat → List Nat → Nat → List Nat → Option (List Nat × Nat)
  | 0, _, _, _ => none
  | fuel + 1, data, stringoffset, str =>
    if stringoffset < data.length then
      (readbyte data stringoffset).bind fun b =>
        if b ≠ 0 then readstring fuel data (stringoffset + 1) (str ++ [b])
        else some (str, stringoffset)
    else some (str, stringoffset)

/-- The test `data[stringoffset] == 0 && data[stringoffset + 1] == 0` of line 55;
the second byte is read only when the first one is zero. -/
def doublenull (data : List Nat) (stringoffset : Nat) : Option Bool :=
  (readbyte data stringoffset).bind fun b0 =>
    if b0 = 0 then (readbyte data (stringoffset + 1)).bind fun b1 => some (decide (b1 = 0))
    else some false

/-- The string-table loop of `parsesmbiosstructures` (lines 54-72),
`while (stringoffset < end - 1) { ... }`. Returns the strings collected and the
final `stringoffset`. The loop is only entered with `end > 4`, so `end - 1`
does not wrap. -/
def walkstrings : Nat → List Nat → Nat → List (List Nat) → Option (List (List Nat) × Nat)
  | 0, _, _, _ => none
  | fuel + 1, data, stringoffset, strings =>
    if stringoffset < data.length - 1 then
      (doublenull data stringoffset).bind fun term =>
        if term then some (strings, stringoffset + 2)
        else
          (readstring (data.length + 1) data stringoffset []).bind fun r =>
            let strings1 := if r.1 ≠ [] then strings ++ [r.1] else strings
            let stringoffset1 := r.2 + 1
            if stringoffset1 ≥ data.length then some (strings1, stringoffset1)
            else walkstrings fuel data stringoffset1 strings1
    else some (strings, stringoffset)

/-- The outer loop of `parsesmbiosstructures` (lines 39-78),
`while (offset + 4 < end) { ... }`, started at cursor `offset` with the
structures collected so far. -/
def parseloop : Nat → List Nat → Nat → List smbiosstructure → Option (List smbiosstructure)
  | 0, _, _, _ => none
  | fuel + 1, data, offset, structures =>
    if offset + 4 < data.length then
      (readbyte data offset).bind fun type =>
      (readbyte data (offset + 1)).bind fun length =>
        if type = 127 then some structures
        else if length < 4 ∨ offset + length > data.length then some structures
        else
          (readrange data offset length).bind fun bytes =>
          (walkstrings (data.length + 1) data (offset + length) []).bind fun w =>
            let structures1 := structures ++ [⟨type, length, bytes, w.1⟩]
            if w.2 ≥ data.length then some structures1
            else parseloop fuel data w.2 structures1
    else some structures

/-- The function `hardwareinfo::parsesmbiosstructures` (lines 33-81): the outer
loop from cursor 0 with nothing collected. -/
def parsesmbiosstructures (data : List Nat) : Option (List smbiosstructure) :=
  parseloop (data.length + 1) data 0 []

/-- The function `hardwareinfo::getsmbiosstring` (lines 83-86): 1-based lookup
in the string table, the empty string for index 0 or an index past the table. -/
def getsmbiosstring (s : smbiosstructure) (index : Nat) : List Nat :=
  if h : index = 0 ∨ index > s.strings.length then []
  else s.strings.get ⟨index - 1, by omega⟩

/-- The function `hardwareinfo::getsmbiosstringat` (lines 88-92). `dataindex` is
an `int`; `static_cast<size_t>(actualoffset)` is reduction modulo `2 ^ 64`.
The `int` sum `4 + dataindex` is taken without wrap-around, which is what the
code computes whenever the sum fits an `int`. -/
def getsmbiosstringat (s : smbiosstructure) (dataindex : Int) : List Nat :=
  let actualoffset : Int := 4 + dataindex
  let idx : Nat := (actualoffset % 2 ^ 64).toNat
  if h : s.data.length ≤ idx then lit "n/a"
  else getsmbiosstring s (s.data.get ⟨idx, by omega⟩)

/-- One uppercase hexadecimal digit (`std::hex << std::uppercase`) as a
character code: `'0'` is 48 and `'A'` is 65. -/
def hexdigit (d : Nat) : Nat := if d < 10 then 48 + d else 55 + d

/-- The uppercase hexadecimal digits of `v`, most significant first, in front
of `acc`; there is always at least one digit. -/
def hexdigits : Nat → Nat → List Nat → List Nat
  | 0, _, acc => acc
  | fuel + 1, v, acc =>
    let acc1 := hexdigit (v % 16) :: acc
    if v / 16 = 0 then acc1 else hexdigits fuel (v / 16) acc1

/-- The stream insertion `oss << std::setw(2) << (int)v` under
`std::hex << std::uppercase << std::setfill('0')`: the hexadecimal digits of
`v`, padded on the left with `'0'` up to width 2 (never truncated). -/
def puthex2 (v : Nat) : List Nat :=
  let digits := hexdigits (v + 1) v []
  List.replicate (2 - digits.length) 48 ++ digits

/-- The function `hardwareinfo::formatuuid` (lines 94-106). The argument stands
for the bytes the pointer `uuid` points at; the sixteen bytes `uuid[0..15]` are
read, and the result is `none` when one of them is not there. -/
def formatuuid (uuid : List Nat) : Option (List Nat) :=
  match readrange uuid 0 16 with
  | some [u0, u1, u2, u3, u4, u5, u6, u7, u8, u9, u10, u11, u12, u13, u14, u15] =>
    some (List.flatten [
      puthex2 u0, puthex2 u1, puthex2 u2, puthex2 u3, lit "-",
      puthex2 u4, puthex2 u5, lit "-",
      puthex2 u6, puthex2 u7, lit "-",
      puthex2 u8, puthex2 u9, lit "-",
      puthex2 u10, puthex2 u11, puthex2 u12, puthex2 u13, puthex2 u14, puthex2 u15])
  | _ => none

/-- The C function `::tolower` in the "C" locale on a character code: the
letters `A`-`Z` (65-90) move to `a`-`z`, every other code is unchanged. -/
def tolower (c : Nat) : Nat := if 65 ≤ c ∧ c ≤ 90 then c + 32 else c

/-- Whether `hay` begins with `needle`. -/
def matchesat : List Nat → List Nat → Bool
  | [], _ => true
  | _ :: _, [] => false
  | a :: as, b :: bs => a = b && matchesat as bs

/-- The search `hay.find(needle)` of `std::string`, scanning from position
`pos` of the original string (`hay` is what is left of it): the position of the
first occurrence, `none` for `std::string::npos`. -/
def find : List Nat → List Nat → Nat → Option Nat
  | [], needle, pos => if matchesat needle [] then some pos else none
  | c :: cs, needle, pos =>
    if matchesat needle (c :: cs) then some pos else find cs needle (pos + 1)

/-- The serial validity test of `getbiosinfo`, written out twice in the source
(lines 143-150 for the system product, lines 181-188 for the baseboard): the
value of `validserial` after the `if`. -/
def validserial (serialnumber : List Nat) : Bool :=
  let serialcheck := serialnumber.map tolower
  if serialnumber = [] ∨ serialcheck = lit "n/a" ∨ serialcheck = lit "none" ∨
      find serialcheck (lit "o.e.m.") 0 ≠ none ∨ find serialcheck (lit "default") 0 ≠ none
  then false else true


/-- The record `hardwareitem` of `hardwareinfo.h`; a `std::wstring` is the list
of its code units. -/
structure hardwareitem where
  category : List Nat
  name : List Nat
  value : List Nat
  notes : List Nat
deriving DecidableEq, Repr

/-- The conversion `std::wstring(s.begin(), s.end())` of a `std::string`: each
`char` becomes one `wchar_t`. On the Windows targets of this code `char` is
signed and `wchar_t` has 16 bits, so a byte of 128 or more is sign-extended
into `0xFF80`-`0xFFFF`. -/
def towstring (s : List Nat) : List Nat :=
  s.map fun c => if c < 128 then c else c + 65280

/-- The two collaborators of `getbiosinfo`, as stub functions:
`readregistrystringraw(HKEY_LOCAL_MACHINE, subkey, valuename)` and
`getwmiproperty(wmiclass, property)`. -/
structure platform where
  readregistrystringraw : String → String → List Nat
  getwmiproperty : String → String → List Nat

/-- The registry key `bbkey` / `syskey` of `getbiosinfo`. -/
def bbkey : String := "HARDWARE\\DESCRIPTION\\System\\BIOS"

/-- The decimal digits of `v`, most significant first, in front of `acc`. -/
def decdigits : Nat → Nat → List Nat → List Nat
  | 0, _, acc => acc
  | fuel + 1, v, acc =>
    let acc1 := (48 + v % 10) :: acc
    if v / 10 = 0 then acc1 else decdigits fuel (v / 10) acc1

/-- The conversion `std::to_wstring(v)` of a non-negative `int`. -/
def towstringnat (v : Nat) : List Nat := decdigits (v + 1) v []

/-- The loop shape shared by the four loops of `getbiosinfo` (lines 119, 131,
170, 213): `for (const auto& s : structures) { if (s.type == t) { body } }`,
where the body appends items to `items`. -/
def pushloop (body : smbiosstructure → Option (List hardwareitem)) (t : Nat) :
    List hardwareitem → List smbiosstructure → Option (List hardwareitem)
  | items, [] => some items
  | items, s :: rest =>
    if s.type = t then (body s).bind fun pushed => pushloop body t (items ++ pushed) rest
    else pushloop body t items rest

/-- The items pushed for one type-0 structure (lines 121-127). -/
def biositems (s : smbiosstructure) : List hardwareitem :=
  let vendor := getsmbiosstringat s 0
  let version := getsmbiosstringat s 1
  let releasedate := getsmbiosstringat s 2
  [⟨lit "bios", lit "vendor", towstring vendor, lit ""⟩,
   ⟨lit "bios", lit "version", towstring version, lit ""⟩,
   ⟨lit "bios", lit "releasedate", towstring releasedate, lit ""⟩]

/-- The items pushed for one type-1 structure (lines 133-166). `&s.data[8]` is
the data from byte 8 on. -/
def systemproductitems (p : platform) (s : smbiosstructure) : Option (List hardwareitem) :=
  let manufacturer := getsmbiosstringat s 0
  let productname := getsmbiosstringat s 1
  let version := getsmbiosstringat s 2
  let serialnumber := getsmbiosstringat s 3
  let items1 : List hardwareitem :=
    [⟨lit "systemproduct", lit "manufacturer", towstring manufacturer, lit ""⟩,
     ⟨lit "systemproduct", lit "productname", towstring productname, lit ""⟩,
     ⟨lit "systemproduct", lit "version", towstring version, lit ""⟩,
     ⟨lit "systemproduct", lit "version", towstring version, lit ""⟩]
  let items2 : List hardwareitem :=
    if validserial serialnumber = false then
      let wmiserial := p.getwmiproperty "Win32_ComputerSystemProduct" "IdentifyingNumber"
      if wmiserial ≠ [] then
        items1 ++ [⟨lit "systemproduct", lit "serialnumber", wmiserial, lit ""⟩]
      else
        items1 ++ [⟨lit "systemproduct", lit "serialnumber", towstring serialnumber, lit ""⟩]
    else
      items1 ++ [⟨lit "systemproduct", lit "serialnumber", towstring serialnumber, lit ""⟩]
  if s.data.length ≥ 24 then
    (formatuuid (s.data.drop 8)).bind fun uuid =>
      some (items2 ++ [⟨lit "systemproduct", lit "uuid", towstring uuid, lit ""⟩])
  else some items2

/-- The items pushed for one type-2 structure (lines 172-209). -/
def baseboarditems (p : platform) (s : smbiosstructure) : List hardwareitem :=
  let manufacturer := getsmbiosstringat s 0
  let product := getsmbiosstringat s 1
  let version := getsmbiosstringat s 2
  let serialnumber := getsmbiosstringat s 3
  let items1 : List hardwareitem :=
    [⟨lit "baseboard", lit "manufacturer", towstring manufacturer, lit ""⟩,
     ⟨lit "baseboard", lit "product", towstring product, lit ""⟩,
     ⟨lit "baseboard", lit "version", towstring version, lit ""⟩]
  if validserial serialnumber = false then
    let regserial0 := p.readregistrystringraw bbkey "BaseBoardSerialNumber"
    let regserial :=
      if regserial0 = lit "n/a" ∨ regserial0 = [] then
        p.readregistrystringraw bbkey "BaseBoardSerial"
      else regserial0
    if regserial ≠ lit "n/a" ∧ regserial ≠ [] then
      items1 ++ [⟨lit "baseboard", lit "serialnumber", regserial, lit ""⟩]
    else
      let wmiserial := p.getwmiproperty "Win32_BaseBoard" "SerialNumber"
      if wmiserial ≠ [] then
        items1 ++ [⟨lit "baseboard", lit "serialnumber", wmiserial, lit ""⟩]
      else
        items1 ++ [⟨lit "baseboard", lit "serialnumber", towstring serialnumber, lit ""⟩]
  else
    items1 ++ [⟨lit "baseboard", lit "serialnumber", towstring serialnumber, lit ""⟩]

/-- The items pushed for one type-3 structure (lines 215-227). -/
def chassisitems (s : smbiosstructure) : List hardwareitem :=
  let manufacturer := getsmbiosstringat s 0
  let version := getsmbiosstringat s 2
  let serialnumber := getsmbiosstringat s 3
  let assettag := getsmbiosstringat s 4
  let items1 : List hardwareitem :=
    [⟨lit "chassis", lit "manufacturer", towstring manufacturer, lit ""⟩,
     ⟨lit "chassis", lit "version", towstring version, lit ""⟩,
     ⟨lit "chassis", lit "serialnumber", towstring serialnumber, lit ""⟩,
     ⟨lit "chassis", lit "assettag", towstring assettag, lit ""⟩]
  if h : s.data.length > 1 then
    items1 ++ [⟨lit "chassis", lit "type", towstringnat (s.data.get ⟨1, h⟩), lit ""⟩]
  else items1

/-- The four loops over the decoded structures (lines 119-229), in source
order, starting from the empty item list. -/
def firmwareitems (p : platform) (structures : List smbiosstructure) :
    Option (List hardwareitem) :=
  (pushloop (fun s => some (biositems s)) 0 [] structures).bind fun items0 =>
  (pushloop (systemproductitems p) 1 items0 structures).bind fun items1 =>
  (pushloop (fun s => some (baseboarditems p s)) 2 items1 structures).bind fun items2 =>
  pushloop (fun s => some (chassisitems s)) 3 items2 structures

/-- The baseboard items read from the registry when no baseboard item was
produced from the table (lines 239-256). -/
def registrybaseboard (p : platform) : List hardwareitem :=
  let manufacturer := p.readregistrystringraw bbkey "BaseBoardManufacturer"
  let product := p.readregistrystringraw bbkey "BaseBoardProduct"
  let version := p.readregistrystringraw bbkey "BaseBoardVersion"
  let serial0 := p.readregistrystringraw bbkey "BaseBoardSerialNumber"
  let serial1 :=
    if serial0 = lit "n/a" ∨ serial0 = [] then p.readregistrystringraw bbkey "BaseBoardSerial"
    else serial0
  let serial :=
    if serial1 = lit "n/a" ∨ serial1 = [] then p.getwmiproperty "Win32_BaseBoard" "SerialNumber"
    else serial1
  [⟨lit "baseboard", lit "manufacturer", manufacturer, lit ""⟩,
   ⟨lit "baseboard", lit "product", product, lit ""⟩,
   ⟨lit "baseboard", lit "version", version, lit ""⟩,
   ⟨lit "baseboard", lit "serialnumber", serial, lit ""⟩]

/-- The system product items read from the registry when no system product
item was produced from the table (lines 260-273). -/
def registrysystemproduct (p : platform) : List hardwareitem :=
  let manufacturer := p.readregistrystringraw bbkey "SystemManufacturer"
  let productname := p.readregistrystringraw bbkey "SystemProductName"
  let version := p.readregistrystringraw bbkey "SystemVersion"
  let serial0 := p.readregistrystringraw bbkey "SystemSerialNumber"
  let serial :=
    if serial0 = lit "n/a" ∨ serial0 = [] then
      p.getwmiproperty "Win32_ComputerSystemProduct" "IdentifyingNumber"
    else serial0
  [⟨lit "systemproduct", lit "manufacturer", manufacturer, lit ""⟩,
   ⟨lit "systemproduct", lit "productname", productname, lit ""⟩,
   ⟨lit "systemproduct", lit "version", version, lit ""⟩,
   ⟨lit "systemproduct", lit "serialnumber", serial, lit ""⟩]

/-- The item pushed when no table data could be retrieved (line 113). -/
def smbioserroritem : hardwareitem :=
  ⟨lit "bios", lit "error", lit "failed to retrieve smbios data",
    lit "may require administrator privileges"⟩

/-- The function `hardwareinfo::getbiosinfo` (lines 108-277). `smbiosdata` is
the value returned by `getsmbiosdata()` on line 111. -/
def getbiosinfo (p : platform) (smbiosdata : List Nat) : Option (List hardwareitem) :=
  if smbiosdata = [] then some [smbioserroritem]
  else
    (parsesmbiosstructures smbiosdata).bind fun structures =>
    (firmwareitems p structures).bind fun items =>
      let hasbaseboard := items.any fun item => decide (item.category = lit "baseboard")
      let hassystemproduct := items.any fun item => decide (item.category = lit "systemproduct")
      let items1 := if hasbaseboard = false then items ++ registrybaseboard p else items
      let items2 := if hassystemproduct = false then items1 ++ registrysystemproduct p else items1
      some items2

/-- A stub platform for examples: the registry holds a manufacturer and the
placeholder serial "Default string" next to a legacy serial; the management
query answers "WMI-1" for the baseboard and nothing for the system product. -/
def stubplatform : platform where
  readregistrystringraw := fun _ valuename =>
    if valuename = "BaseBoardSerialNumber" then lit "Default string"
    else if valuename = "BaseBoardSerial" then lit "BB-777"
    else if valuename = "BaseBoardManufacturer" then lit "Acme"
    else lit "n/a"
  getwmiproperty := fun wmiclass _ =>
    if wmiclass = "Win32_BaseBoard" then lit "WMI-1" else []

/-- A stub platform whose management query answers "WMI-9" to everything and
whose registry holds nothing. -/
def wmiplatform : platform where
  readregistrystringraw := fun _ _ => lit "n/a"
  getwmiproperty := fun _ _ => lit "WMI-9"

/-- A raw table with one type-1 record of length 8 (manufacturer string 1,
product name string 2, version string 0, serial string 3) with the strings
"Acme", "X1", "Default string", followed by the end-of-table record. -/
def acmetable : List Nat :=
  [1, 8, 0, 0, 1, 2, 0, 3] ++ lit "Acme" ++ [0] ++ lit "X1" ++ [0] ++ lit "Default string"
    ++ [0, 0] ++ [127, 4, 0, 0, 0, 0]

/-- First position, counted from `pos`, of a character that satisfies `pred`;
`none` for `npos`. With `pred` the test for one character this is
`std::wstring::find(c)`, with the test for not being in a set it is
`find_first_not_of(set)`. -/
def findfirst (pred : Nat → Bool) : List Nat → Nat → Option Nat
  | [], _ => none
  | c :: cs, pos => if pred c then some pos else findfirst pred cs (pos + 1)

/-- Last position, counted from `pos`, of a character that satisfies `pred`;
`none` for `npos`: `std::wstring::rfind(c)` and `find_last_not_of(set)`. -/
def findlast (pred : Nat → Bool) : List Nat → Nat → Option Nat
  | [], _ => none
  | c :: cs, pos =>
    match findlast pred cs (pos + 1) with
    | some i => some i
    | none => if pred c then some pos else none

/-- The trimming idiom of the source (lines 632-637, 746-750, 763-768):
`start = s.find_first_not_of(set); end = s.find_last_not_of(set);` and, when
both are found, `s.substr(start, end - start + 1)`, otherwise `s` itself. -/
def trimset (set : List Nat) (s : List Nat) : List Nat :=
  match findfirst (fun c => !set.contains c) s 0, findlast (fun c => !set.contains c) s 0 with
  | some start, some stop => (s.drop start).take (stop - start + 1)
  | _, _ => s

/-- The `tail` of `extractserialfrominstance` (lines 738-739): what follows the
last backslash (code 92), the whole string when there is none. -/
def instancetail (instanceid : List Nat) : List Nat :=
  match findlast (fun c => c == 92) instanceid 0 with
  | some idx => instanceid.drop (idx + 1)
  | none => instanceid

/-- The function `hardwareinfo::extractserialfrominstance` (lines 735-773); `&`
is code 38, `0` is code 48, space and tab are 32 and 9. -/
def extractserialfrominstance (instanceid : List Nat) (isusbstor : Bool) : List Nat :=
  if instanceid = [] then []
  else
    let tail := instancetail instanceid
    if isusbstor then
      let serial0 :=
        match findfirst (fun c => c == 38) tail 0 with
        | some amp => if amp > 0 then tail.take amp else tail
        | none => tail
      let serial := trimset [32, 9] serial0
      if serial = [] then []
      else if serial.all (fun c => c == 48) then []
      else serial
    else
      if findfirst (fun c => c == 38) tail 0 ≠ none then []
      else trimset [32, 9] tail

/-- The loop of `extractedidstring` (lines 626-630) with `n` iterations left
and loop counter `i`: read `edid[start + i]`, stop at a line feed, keep the byte
when it is printable. -/
def edidchars (edid : List Nat) (start : Nat) : Nat → Nat → List Nat → Option (List Nat)
  | 0, _, result => some result
  | n + 1, i, result =>
    (readbyte edid (start + i)).bind fun b =>
      if b = 10 then some result
      else edidchars edid start n (i + 1) (if 32 ≤ b ∧ b ≤ 126 then result ++ [b] else result)

/-- The function `hardwareinfo::extractedidstring` (lines 624-638). -/
def extractedidstring (edid : List Nat) (start : Nat) : Option (List Nat) :=
  (edidchars edid start 13 0 []).bind fun result =>
    some (trimset [32, 9] (result.map tolower))

/-- The descriptor test of lines 645-646 and 658-659:
`edid[offset] == 0 && edid[offset + 1] == 0 && edid[offset + 2] == 0 &&
edid[offset + 3] == tag`, reading a byte only when the ones before matched. -/
def edidtagat (edid : List Nat) (offset tag : Nat) : Option Bool :=
  (readbyte edid offset).bind fun b0 =>
    if b0 ≠ 0 then some false
    else (readbyte edid (offset + 1)).bind fun b1 =>
      if b1 ≠ 0 then some false
      else (readbyte edid (offset + 2)).bind fun b2 =>
        if b2 ≠ 0 then some false
        else (readbyte edid (offset + 3)).bind fun b3 => some (decide (b3 = tag))

/-- The loop `for (int offset : offsets)` of lines 644-649 and 657-662 over the
offsets still to visit; the empty string when no descriptor matches. -/
def edidscan (edid : List Nat) (tag : Nat) : List Nat → Option (List Nat)
  | [] => some []
  | offset :: rest =>
    (edidtagat edid offset tag).bind fun hit =>
      if hit then extractedidstring edid (offset + 5) else edidscan edid tag rest

/-- The function `hardwareinfo::getmonitornamefromedid` (lines 640-651). -/
def getmonitornamefromedid (edid : List Nat) (length : Nat) : Option (List Nat) :=
  if length < 128 then some [] else edidscan edid 0xFC [54, 72, 90, 108]

/-- The function `hardwareinfo::getmonitorserialfromedid` (lines 653-664). -/
def getmonitorserialfromedid (edid : List Nat) (length : Nat) : Option (List Nat) :=
  if length < 128 then some [] else edidscan edid 0xFF [54, 72, 90, 108]

/-- Specification side: the descriptor at `offset` carries the tag
`00 00 00 tag`. -/
def edidhastag_spec (edid : List Nat) (offset tag : Nat) : Bool :=
  decide (edid[offset]? = some 0 ∧ edid[offset + 1]? = some 0 ∧
    edid[offset + 2]? = some 0 ∧ edid[offset + 3]? = some tag)

/-- Specification side: of the 13 bytes from `start`, those before the first
line feed, only the printable ones (32..126), lowercased. -/
def edidtext_spec (edid : List Nat) (start : Nat) : List Nat :=
  ((((edid.drop start).take 13).takeWhile fun b => decide (b ≠ 10)).filter
    fun b => decide (32 ≤ b ∧ b ≤ 126)).map tolower

/-- Specification side: the text of the first descriptor, among the offsets
54, 72, 90, 108 in that order, that carries the tag, trimmed the way the
source trims; the empty string when none carries it. -/
def edidfield_spec (edid : List Nat) (tag : Nat) : List Nat :=
  match [54, 72, 90, 108].find? (fun o => edidhastag_spec edid o tag) with
  | some o => trimset [32, 9] (edidtext_spec edid (o + 5))
  | none => []

/-- An EDID block of 128 bytes whose second descriptor (offset 72) is a serial
number descriptor with the text "AB 12" followed by a line feed, and whose
third descriptor (offset 90) is a name descriptor with the text "Dell U24". -/
def sampleedid : List Nat :=
  List.replicate 72 1 ++ [0, 0, 0, 0xFF, 0] ++ lit "AB 12" ++ [10] ++ List.replicate 7 32
    ++ [0, 0, 0, 0xFC, 0] ++ lit "Dell U24" ++ [10] ++ List.replicate 4 32
    ++ List.replicate 20 1

/-- The conversion of a 32-bit pattern to `int` (`(int)written`,
`*reinterpret_cast<int*>(...)`): two's complement. -/
def toint32 (n : Nat) : Int :=
  if n % 2 ^ 32 < 2 ^ 31 then ((n % 2 ^ 32 : Nat) : Int) else ((n % 2 ^ 32 : Nat) : Int) - 2 ^ 32

/-- The function `hardwareinfo::getsmbiosdata` (lines 11-31) as a function of
what the two calls of `GetSystemFirmwareTable` give: `totalsize` is the value
of the first call, `buffer` the vector of `totalsize` bytes after the second
call, `written` the value of the second call. The `int` at `&buffer[4]` is the
little-endian word of the bytes 4..7. -/
def getsmbiosdata (totalsize written : Nat) (buffer : List Nat) : Option (List Nat) :=
  if totalsize < 8 then some []
  else if written < 8 then some []
  else
    match readrange buffer 4 4 with
    | some [b0, b1, b2, b3] =>
      let tablelength : Int := toint32 (b0 + 256 * b1 + 65536 * b2 + 16777216 * b3)
      if tablelength ≤ 0 then some []
      else
        let available : Int := toint32 written - 8
        let copylen : Int := min tablelength available
        if copylen ≤ 0 then some []
        else readrange buffer 8 copylen.toNat
    | _ => none

/-- An EDID block of 128 bytes whose first descriptor (offset 54) is a serial
number descriptor with 13 spaces as its text. -/
def blankedid : List Nat :=
  List.replicate 54 1 ++ [0, 0, 0, 0xFF, 0] ++ List.replicate 13 32 ++ List.replicate 56 1

/-- What the decoder guarantees about a structure `s` read at offset `o` of
the buffer `data`: the header bytes, the data range, and the strings. -/
def decodedat (data : List Nat) (o : Nat) (s : smbiosstructure) : Prop :=
  s.type ≠ 127 ∧ 4 ≤ s.length ∧ o + s.length ≤ data.length ∧
    data[o]? = some s.type ∧ data[o + 1]? = some s.length ∧
    s.data = (data.drop o).take s.length ∧
    ∀ str ∈ s.strings, str ≠ [] ∧ 0 ∉ str

/-- Specification side: the declared table length, the little-endian signed
32-bit word at byte offset 4 of the raw bytes (0 when the bytes 4..7 are not
all there). -/
def declaredlength_spec (buffer : List Nat) : Int :=
  match (buffer.drop 4).take 4 with
  | [b0, b1, b2, b3] => toint32 (b0 + 256 * b1 + 65536 * b2 + 16777216 * b3)
  | _ => 0

/-- The decoded structures of type `t`, in table order. -/
def oftype (t : Nat) (structures : List smbiosstructure) : List smbiosstructure :=
  structures.filter fun s => decide (s.type = t)

/-- A record without strings as the round-trip property describes it: its type
is not the end-of-table type 127, its length is at least 4, its data are
`length` bytes that begin with the type byte and the length byte, and its
string table is empty. -/
def stringless (s : smbiosstructure) : Prop :=
  s.type ≠ 127 ∧ 4 ≤ s.length ∧ s.data.length = s.length ∧
    s.data[0]? = some s.type ∧ s.data[1]? = some s.length ∧ s.strings = []

/-- The byte buffer of a list of string-less records: the data bytes of each
record followed by `00 00`, then the end-of-table record
`127, 4, h0, h1, 00 00`. -/
def encodestringless (recs : List smbiosstructure) (h0 h1 : Nat) : List Nat :=
  (recs.map fun s => s.data ++ [0, 0]).flatten ++ [127, 4, h0, h1, 0, 0]

/-- Position, in the 36-character text of a UUID, of the first of the two
digits of byte `i`: two characters per byte, plus one for each hyphen after
bytes 3, 5, 7 and 9. -/
def uuidpos (i : Nat) : Nat :=
  2 * i + (if i < 4 then 0 else if i < 6 then 1 else if i < 8 then 2 else if i < 10 then 3 else 4)

/-- The character codes of `0`-`9` and `A`-`F`. -/
def isupperhex (c : Nat) : Prop := (48 ≤ c ∧ c ≤ 57) ∨ (65 ≤ c ∧ c ≤ 70)

instance : DecidablePred stringless := fun s => by
  unfold stringless
  infer_instance

/-! ## Reading inside the buffer -/

theorem readbyte_of_lt {data : List Nat} {i : Nat} (h : i < data.length) :
    readbyte data i = some data[i] := by
  simp [readbyte, List.getElem?_eq_getElem h]

theorem doublenull_of_lt (data : List Nat) (so : Nat) (h : so + 1 < data.length) :
    ∃ t, doublenull data so = some t := by
  have h0 : so < data.length := by omega
  unfold doublenull
  rw [readbyte_of_lt h0, readbyte_of_lt h]
  simp only [Option.some_bind]
  split <;> exact ⟨_, rfl⟩

/-- The innermost loop returns within `end - stringoffset + 1` iterations and
never moves the cursor backwards. -/
theorem readstring_total (data : List Nat) :
    ∀ (fuel so : Nat) (str : List Nat), data.length - so < fuel →
      ∃ str1 so1, readstring fuel data so str = some (str1, so1) ∧ so ≤ so1 := by
  intro fuel
  induction fuel with
  | zero => intro so str h; omega
  | succ n ih =>
    intro so str h
    unfold readstring
    by_cases hlt : so < data.length
    · rw [if_pos hlt, readbyte_of_lt hlt]
      simp only [Option.some_bind]
      by_cases hb : data[so] ≠ 0
      · rw [if_pos hb]
        obtain ⟨s1, o1, he, hle⟩ := ih (so + 1) (str ++ [data[so]]) (by omega)
        exact ⟨s1, o1, he, by omega⟩
      · rw [if_neg hb]
        exact ⟨str, so, rfl, le_refl _⟩
    · rw [if_neg hlt]
      exact ⟨str, so, rfl, le_refl _⟩

/-- The string-table loop returns within `end - stringoffset + 1` iterations
and never moves the cursor backwards. -/
theorem walkstrings_total (data : List Nat) :
    ∀ (fuel so : Nat) (strs : List (List Nat)), data.length - so < fuel →
      ∃ strs1 so1, walkstrings fuel data so strs = some (strs1, so1) ∧ so ≤ so1 := by
  intro fuel
  induction fuel with
  | zero => intro so strs h; omega
  | succ n ih =>
    intro so strs h
    unfold walkstrings
    by_cases hlt : so < data.length - 1
    · rw [if_pos hlt]
      obtain ⟨t, ht⟩ := doublenull_of_lt data so (by omega)
      rw [ht]
      simp only [Option.some_bind]
      cases t with
      | true => exact ⟨strs, so + 2, by simp, by omega⟩
      | false =>
        obtain ⟨s1, o1, he, hle⟩ := readstring_total data (data.length + 1) so [] (by omega)
        rw [he]
        simp only [Option.some_bind, Bool.false_eq_true, if_false]
        by_cases hge : o1 + 1 ≥ data.length
        · rw [if_pos hge]
          exact ⟨_, _, rfl, by omega⟩
        · rw [if_neg hge]
          obtain ⟨s2, o2, he2, hle2⟩ :=
            ih (o1 + 1) (if s1 ≠ [] then strs ++ [s1] else strs) (by omega)
          exact ⟨s2, o2, he2, by omega⟩
    · rw [if_neg hlt]
      exact ⟨strs, so, rfl, le_refl _⟩

theorem readrange_of_le {data : List Nat} {offset length : Nat}
    (h : offset + length ≤ data.length) :
    readrange data offset length = some ((data.drop offset).take length) := by
  simp [readrange, h]

/-- The outer loop returns within `end - offset + 1` iterations, and what it
returns extends the structures collected so far. -/
theorem parseloop_total (data : List Nat) :
    ∀ (fuel offset : Nat) (acc : List smbiosstructure), data.length - offset < fuel →
      ∃ r, parseloop fuel data offset acc = some (acc ++ r) := by
  intro fuel
  induction fuel with
  | zero => intro offset acc h; omega
  | succ n ih =>
    intro offset acc h
    unfold parseloop
    by_cases hlt : offset + 4 < data.length
    · rw [if_pos hlt, readbyte_of_lt (show offset < data.length by omega),
        readbyte_of_lt (show offset + 1 < data.length by omega)]
      simp only [Option.some_bind]
      by_cases ht : data[offset] = 127
      · rw [if_pos ht]; exact ⟨[], by simp⟩
      · rw [if_neg ht]
        by_cases hl : data[offset + 1] < 4 ∨ offset + data[offset + 1] > data.length
        · rw [if_pos hl]; exact ⟨[], by simp⟩
        · rw [if_neg hl, readrange_of_le (by omega)]
          obtain ⟨s1, o1, he, hle⟩ :=
            walkstrings_total data (data.length + 1) (offset + data[offset + 1]) [] (by omega)
          rw [he]
          simp only [Option.some_bind]
          by_cases hge : o1 ≥ data.length
          · rw [if_pos hge]; exact ⟨_, rfl⟩
          · rw [if_neg hge]
            obtain ⟨r, hr⟩ := ih o1 (acc ++ [⟨data[offset], data[offset + 1],
              (data.drop offset).take data[offset + 1], s1⟩]) (by omega)
            exact ⟨⟨data[offset], data[offset + 1],
              (data.drop offset).take data[offset + 1], s1⟩ :: r, by rw [hr]; simp⟩
    · rw [if_neg hlt]; exact ⟨[], by simp⟩


/-! ## Decoding a table of string-less records -/

theorem readbyte_append (pre xs : List Nat) (i : Nat) :
    readbyte (pre ++ xs) (pre.length + i) = readbyte xs i := by
  unfold readbyte
  rw [List.getElem?_append_right (Nat.le_add_right _ _), Nat.add_sub_cancel_left]

theorem readbyte_append_zero (pre xs : List Nat) :
    readbyte (pre ++ xs) pre.length = readbyte xs 0 := by
  simpa using readbyte_append pre xs 0

theorem stringless_eta {s : smbiosstructure} (hs : stringless s) :
    (⟨s.type, s.length, s.data, []⟩ : smbiosstructure) = s := by
  obtain ⟨_, _, _, _, _, h⟩ := hs
  cases s
  simp_all

/-- One iteration of the outer loop on a string-less record that is followed
by more bytes: the record is appended and the cursor moves past its `00 00`. -/
theorem parseloop_stringless_step (pre rest : List Nat) (s : smbiosstructure)
    (hs : stringless s) (hrest : rest ≠ []) (fuel : Nat) (acc : List smbiosstructure) :
    parseloop (fuel + 1) (pre ++ (s.data ++ 0 :: 0 :: rest)) pre.length acc
      = parseloop fuel (pre ++ (s.data ++ 0 :: 0 :: rest)) (pre.length + s.length + 2)
          (acc ++ [s]) := by
  have heta := stringless_eta hs
  obtain ⟨ht, hl, hlen, hd0, hd1, hstr⟩ := hs
  have hrl : 0 < rest.length := List.length_pos.mpr hrest
  have hdl : (pre ++ (s.data ++ 0 :: 0 :: rest)).length
      = pre.length + s.length + 2 + rest.length := by
    simp [hlen]; omega
  have hb0 : readbyte (pre ++ (s.data ++ 0 :: 0 :: rest)) pre.length = some s.type := by
    rw [readbyte_append_zero]
    unfold readbyte
    rw [List.getElem?_append_left (by omega), hd0]
  have hb1 : readbyte (pre ++ (s.data ++ 0 :: 0 :: rest)) (pre.length + 1) = some s.length := by
    rw [readbyte_append]
    unfold readbyte
    rw [List.getElem?_append_left (by omega), hd1]
  have hz0 : readbyte (pre ++ (s.data ++ 0 :: 0 :: rest)) (pre.length + s.length) = some 0 := by
    rw [readbyte_append, ← hlen]
    simpa using readbyte_append_zero s.data (0 :: 0 :: rest)
  have hz1 : readbyte (pre ++ (s.data ++ 0 :: 0 :: rest)) (pre.length + s.length + 1)
      = some 0 := by
    rw [Nat.add_assoc, readbyte_append, ← hlen, readbyte_append]
    simp [readbyte]
  have hrange : readrange (pre ++ (s.data ++ 0 :: 0 :: rest)) pre.length s.length
      = some s.data := by
    rw [readrange_of_le (by omega), List.drop_left, ← hlen, List.take_left]
  have hwalk : walkstrings ((pre ++ (s.data ++ 0 :: 0 :: rest)).length + 1)
      (pre ++ (s.data ++ 0 :: 0 :: rest)) (pre.length + s.length) []
      = some ([], pre.length + s.length + 2) := by
    unfold walkstrings
    rw [if_pos (by omega)]
    unfold doublenull
    rw [hz0, Option.some_bind, if_pos rfl, hz1]
    simp
  rw [parseloop, if_pos (by omega), hb0, hb1]
  simp only [Option.some_bind]
  rw [if_neg ht, if_neg (by omega), hrange, Option.some_bind, hwalk, Option.some_bind]
  simp only [heta]
  rw [if_neg (by omega)]

theorem encodestringless_cons (s : smbiosstructure) (recs : List smbiosstructure)
    (h0 h1 : Nat) :
    encodestringless (s :: recs) h0 h1 = s.data ++ 0 :: 0 :: encodestringless recs h0 h1 := by
  simp [encodestringless]

theorem encodestringless_ne_nil (recs : List smbiosstructure) (h0 h1 : Nat) :
    encodestringless recs h0 h1 ≠ [] := by
  simp [encodestringless]

theorem encodestringless_length (recs : List smbiosstructure) (h0 h1 : Nat) :
    recs.length ≤ (encodestringless recs h0 h1).length := by
  induction recs with
  | nil => simp
  | cons s recs ih =>
    rw [encodestringless_cons]
    simp only [List.length_append, List.length_cons]
    omega

/-- The outer loop, standing at the start of an encoded list of string-less
records, appends exactly those records. -/
theorem parseloop_stringless (h0 h1 : Nat) :
    ∀ (recs : List smbiosstructure) (pre : List Nat) (acc : List smbiosstructure) (fuel : Nat),
      (∀ s ∈ recs, stringless s) → recs.length < fuel →
      parseloop fuel (pre ++ encodestringless recs h0 h1) pre.length acc = some (acc ++ recs) := by
  intro recs
  induction recs with
  | nil =>
    intro pre acc fuel _ hf
    obtain ⟨n, rfl⟩ : ∃ n, fuel = n + 1 := ⟨fuel - 1, by simp at hf; omega⟩
    unfold parseloop
    have hb0 : readbyte (pre ++ encodestringless [] h0 h1) pre.length = some 127 := by
      rw [readbyte_append_zero]; rfl
    have hb1 : readbyte (pre ++ encodestringless [] h0 h1) (pre.length + 1) = some 4 := by
      rw [readbyte_append]; rfl
    rw [if_pos (by simp [encodestringless]), hb0, hb1]
    simp
  | cons s recs ih =>
    intro pre acc fuel hall hf
    obtain ⟨n, rfl⟩ : ∃ n, fuel = n + 1 := ⟨fuel - 1, by simp at hf; omega⟩
    have hs : stringless s := hall s (List.mem_cons_self _ _)
    rw [encodestringless_cons,
      parseloop_stringless_step pre _ s hs (encodestringless_ne_nil recs h0 h1) n acc]
    have hlen := hs.2.2.1
    have hre : pre ++ (s.data ++ 0 :: 0 :: encodestringless recs h0 h1)
        = (pre ++ s.data ++ [0, 0]) ++ encodestringless recs h0 h1 := by simp
    have hoff : pre.length + s.length + 2 = (pre ++ s.data ++ [0, 0]).length := by
      simp only [List.length_append, List.length_cons, List.length_nil, hlen]
    rw [hre, hoff, ih (pre ++ s.data ++ [0, 0]) (acc ++ [s]) n
      (fun x hx => hall x (List.mem_cons_of_mem _ hx)) (by simp at hf; omega)]
    simp

/-! ## The table decoder: claims C1-C5 -/

/-- C1 (defect of the code): the table `01 04 00 00 'A' 00 00` followed by the
end-of-table record `7F 04 00 00 00 00` holds one type-1 record with the single
string "A". The decoder returns one structure whose strings are "A" and the
two bytes `7F 04`: after the last string only one zero byte is left, the test
for two zero bytes fails on it, and the walk runs on into the next record. -/
theorem parsesmbiosstructures_absorbs_next_record :
    parsesmbiosstructures [1, 4, 0, 0, 65, 0, 0, 127, 4, 0, 0, 0, 0]
      = some [⟨1, 4, [1, 4, 0, 0], [[65], [127, 4]]⟩] := by
  decide

/-- C2: a table of string-less records (type not 127, length at least 4, each
laid out as its data bytes followed by `00 00`) closed by an end-of-table
record decodes to exactly those records, in order. -/
theorem parsesmbiosstructures_stringless_roundtrip (recs : List smbiosstructure)
    (h0 h1 : Nat) (hall : ∀ s ∈ recs, stringless s) :
    parsesmbiosstructures (encodestringless recs h0 h1) = some recs := by
  have h := parseloop_stringless h0 h1 recs [] []
    ((encodestringless recs h0 h1).length + 1) hall
    (Nat.lt_succ_of_le (encodestringless_length recs h0 h1))
  simpa [parsesmbiosstructures] using h

theorem parsesmbiosstructures_stringless_roundtrip_witness :
    (∀ s ∈ [(⟨1, 4, [1, 4, 9, 9], []⟩ : smbiosstructure), ⟨2, 5, [2, 5, 0, 0, 7], []⟩],
        stringless s) ∧
      parsesmbiosstructures
          (encodestringless [⟨1, 4, [1, 4, 9, 9], []⟩, ⟨2, 5, [2, 5, 0, 0, 7], []⟩] 1 2)
        = some [⟨1, 4, [1, 4, 9, 9], []⟩, ⟨2, 5, [2, 5, 0, 0, 7], []⟩] :=
  ⟨by decide, parsesmbiosstructures_stringless_roundtrip _ 1 2 (by decide)⟩

/-- C3: on every buffer, the empty one included, the decoder runs to the end
without reading outside the buffer: every read is a checked one and none of
them fails, and the iteration budget is never exhausted. -/
theorem parsesmbiosstructures_reads_in_bounds (data : List Nat) :
    ∃ r, parsesmbiosstructures data = some r := by
  obtain ⟨r, hr⟩ := parseloop_total data (data.length + 1) 0 [] (by omega)
  exact ⟨r, by simpa [parsesmbiosstructures] using hr⟩

/-- C4: when the cursor stands on a record whose type byte is 127, or whose
length byte is below 4, or whose length runs past the end of the buffer, the
loop stops and returns exactly the structures collected before; at cursor 0
the decoder returns the empty sequence. -/
theorem parseloop_stops_at_bad_record (fuel : Nat) (data : List Nat) (offset : Nat)
    (acc : List smbiosstructure)
    (h : data[offset]? = some 127 ∨
      ∃ l, data[offset + 1]? = some l ∧ (l < 4 ∨ offset + l > data.length)) :
    parseloop (fuel + 1) data offset acc = some acc ∧
      (offset = 0 → parsesmbiosstructures data = some []) := by
  have key : ∀ (f : Nat) (a : List smbiosstructure), parseloop (f + 1) data offset a = some a := by
    intro f a
    rw [parseloop]
    by_cases hlt : offset + 4 < data.length
    · have h0 : offset < data.length := by omega
      have h1 : offset + 1 < data.length := by omega
      rw [if_pos hlt, readbyte_of_lt h0, readbyte_of_lt h1]
      simp only [Option.some_bind]
      rcases h with h | ⟨l, hl, hbad⟩
      · rw [List.getElem?_eq_getElem h0] at h
        rw [if_pos (Option.some.inj h)]
      · rw [List.getElem?_eq_getElem h1] at hl
        have hl2 : data[offset + 1] = l := Option.some.inj hl
        by_cases ht : data[offset] = 127
        · rw [if_pos ht]
        · rw [if_neg ht, if_pos (by rw [hl2]; exact hbad)]
    · rw [if_neg hlt]
  refine ⟨key fuel acc, ?_⟩
  intro h0
  subst h0
  exact key data.length []

theorem parseloop_stops_at_bad_record_witness :
    (([1, 4, 0, 0, 0, 0, 5, 200] ++ List.replicate 48 0)[6]? = some 127 ∨
      ∃ l, ([1, 4, 0, 0, 0, 0, 5, 200] ++ List.replicate 48 0)[6 + 1]? = some l ∧
        (l < 4 ∨ 6 + l > ([1, 4, 0, 0, 0, 0, 5, 200] ++ List.replicate 48 0).length)) ∧
      parseloop (0 + 1) ([1, 4, 0, 0, 0, 0, 5, 200] ++ List.replicate 48 0) 6
          [⟨1, 4, [1, 4, 0, 0], []⟩]
        = some [⟨1, 4, [1, 4, 0, 0], []⟩] :=
  ⟨Or.inr ⟨200, by decide, Or.inr (by decide)⟩,
    (parseloop_stops_at_bad_record 0 ([1, 4, 0, 0, 0, 0, 5, 200] ++ List.replicate 48 0) 6
      [⟨1, 4, [1, 4, 0, 0], []⟩] (Or.inr ⟨200, by decide, Or.inr (by decide)⟩)).1⟩

/-- C5, the claim as stated fails: a buffer that is just the 4-byte record
`01 04 00 00` does not decode to one structure. -/
theorem parsesmbiosstructures_bare_record_not_emitted :
    parsesmbiosstructures [1, 4, 0, 0] ≠ some [⟨1, 4, [1, 4, 0, 0], []⟩] := by
  decide

/-- C5 as amended: the loop goes on only while more than 4 bytes remain at the
cursor. Whenever at least 5 bytes remain and the record there has type not 127,
length at least 4, and ends inside the buffer, the record is emitted (after
the structures collected so far) with the bytes `[offset, offset + length)` as
its data. A buffer that is only a 4-byte record `[t, 4, h0, h1]` decodes to
no structure; the same record followed by one more byte decodes to exactly
one structure with data `[t, 4, h0, h1]` and no strings. -/
theorem parseloop_emits_record (fuel : Nat) (data : List Nat) (offset t l : Nat)
    (acc : List smbiosstructure) (hfuel : data.length - offset < fuel)
    (hrem : offset + 4 < data.length) (ht : data[offset]? = some t)
    (hl : data[offset + 1]? = some l) (ht127 : t ≠ 127) (hl4 : 4 ≤ l)
    (hend : offset + l ≤ data.length) :
    (∃ strings rest, parseloop fuel data offset acc
        = some (acc ++ ⟨t, l, (data.drop offset).take l, strings⟩ :: rest)) ∧
      (∀ h0 h1, parsesmbiosstructures [t, 4, h0, h1] = some []) ∧
      (∀ h0 h1 x, parsesmbiosstructures [t, 4, h0, h1, x] = some [⟨t, 4, [t, 4, h0, h1], []⟩]) := by
  refine ⟨?_, ?_, ?_⟩
  · obtain ⟨n, rfl⟩ : ∃ n, fuel = n + 1 := ⟨fuel - 1, by omega⟩
    have h0 : offset < data.length := by omega
    have h1 : offset + 1 < data.length := by omega
    rw [List.getElem?_eq_getElem h0] at ht
    rw [List.getElem?_eq_getElem h1] at hl
    have ht2 : data[offset] = t := Option.some.inj ht
    have hl2 : data[offset + 1] = l := Option.some.inj hl
    rw [parseloop, if_pos hrem, readbyte_of_lt h0, readbyte_of_lt h1]
    simp only [Option.some_bind]
    rw [ht2, hl2, if_neg ht127, if_neg (by omega), readrange_of_le hend]
    obtain ⟨s1, o1, he, hle⟩ :=
      walkstrings_total data (data.length + 1) (offset + l) [] (by omega)
    rw [he]
    simp only [Option.some_bind]
    by_cases hge : o1 ≥ data.length
    · rw [if_pos hge]; exact ⟨s1, [], by simp⟩
    · rw [if_neg hge]
      obtain ⟨r, hr⟩ := parseloop_total data n o1
        (acc ++ [⟨t, l, (data.drop offset).take l, s1⟩]) (by omega)
      exact ⟨s1, r, by rw [hr]; simp⟩
  · intro h0 h1
    show parseloop (4 + 1) [t, 4, h0, h1] 0 [] = some []
    rw [parseloop, if_neg (by simp)]
  · intro h0 h1 x
    have hw : walkstrings ([t, 4, h0, h1, x].length + 1) [t, 4, h0, h1, x] (0 + 4) []
        = some ([], 4) := by
      rw [walkstrings, if_neg (by simp)]
    have hr : readrange [t, 4, h0, h1, x] 0 4 = some [t, 4, h0, h1] := by
      simp [readrange]
    have hb0 : readbyte [t, 4, h0, h1, x] 0 = some t := rfl
    have hb1 : readbyte [t, 4, h0, h1, x] (0 + 1) = some 4 := rfl
    show parseloop (5 + 1) [t, 4, h0, h1, x] 0 [] = _
    rw [parseloop, if_pos (by simp), hb0, Option.some_bind, hb1, Option.some_bind,
      if_neg ht127, if_neg (by simp), hr, Option.some_bind, hw, Option.some_bind]
    simp only [List.nil_append]
    rw [if_neg (by simp)]
    show parseloop (4 + 1) [t, 4, h0, h1, x] 4 _ = _
    rw [parseloop, if_neg (by simp)]

theorem parseloop_emits_record_witness :
    ∃ strings rest, parseloop 7 [1, 4, 0, 0, 0, 0] 0 []
        = some ([] ++ ⟨1, 4, ([1, 4, 0, 0, 0, 0].drop 0).take 4, strings⟩ :: rest) :=
  (parseloop_emits_record 7 [1, 4, 0, 0, 0, 0] 0 1 4 [] (by decide) (by decide) (by decide)
    (by decide) (by decide) (by decide) (by decide)).1

/-! ## The field extractors: claims C6-C9 -/

/-- C6: `getsmbiosstring s i` is the empty string when `i = 0` or `i` is past
the string table, and the string number `i` (counted from 1) otherwise. -/
theorem getsmbiosstring_lookup (s : smbiosstructure) (i : Nat) :
    ((i = 0 ∨ i > s.strings.length) → getsmbiosstring s i = []) ∧
      ((1 ≤ i ∧ i ≤ s.strings.length) → s.strings[i - 1]? = some (getsmbiosstring s i)) := by
  constructor
  · intro h
    simp [getsmbiosstring, h]
  · intro h
    have hn : ¬(i = 0 ∨ i > s.strings.length) := by omega
    have hlt : i - 1 < s.strings.length := by omega
    simp [getsmbiosstring, hn, List.getElem?_eq_getElem hlt]

theorem getsmbiosstring_lookup_witness :
    getsmbiosstring ⟨1, 4, [1, 4, 0, 0], [[65], [66, 67]]⟩ 0 = [] ∧
      getsmbiosstring ⟨1, 4, [1, 4, 0, 0], [[65], [66, 67]]⟩ 3 = [] ∧
      [[65], [66, 67]][2 - 1]? = some (getsmbiosstring ⟨1, 4, [1, 4, 0, 0], [[65], [66, 67]]⟩ 2) :=
  ⟨(getsmbiosstring_lookup ⟨1, 4, [1, 4, 0, 0], [[65], [66, 67]]⟩ 0).1 (Or.inl rfl),
    (getsmbiosstring_lookup ⟨1, 4, [1, 4, 0, 0], [[65], [66, 67]]⟩ 3).1 (Or.inr (by decide)),
    (getsmbiosstring_lookup ⟨1, 4, [1, 4, 0, 0], [[65], [66, 67]]⟩ 2).2 (by decide)⟩

theorem getsmbiosstringat_index (f : Int) (hf : 0 ≤ f) (hint : 4 + f < 2 ^ 31) :
    ((4 + f) % 2 ^ 64).toNat = (4 + f).toNat := by
  rw [Int.emod_eq_of_lt (by omega) (by omega)]

/-- C7: for a field offset `f ≥ 0` (with `4 + f` an `int`),
`getsmbiosstringat s f` is "n/a" when `4 + f` is not an index of `s.data`, and
`getsmbiosstring s (s.data[4 + f])` otherwise; a field that is present and holds
index 0 or an index past the string table gives the empty string, not "n/a". -/
theorem getsmbiosstringat_lookup (s : smbiosstructure) (f : Int) (hf : 0 ≤ f)
    (hint : 4 + f < 2 ^ 31) :
    (s.data.length ≤ (4 + f).toNat → getsmbiosstringat s f = lit "n/a") ∧
      (∀ b, s.data[(4 + f).toNat]? = some b →
        getsmbiosstringat s f = getsmbiosstring s b ∧
          ((b = 0 ∨ b > s.strings.length) →
            getsmbiosstringat s f = [] ∧ getsmbiosstringat s f ≠ lit "n/a")) := by
  have hidx := getsmbiosstringat_index f hf hint
  constructor
  · intro h
    unfold getsmbiosstringat
    simp only [hidx]
    rw [dif_pos h]
  · intro b hb
    have hlt : (4 + f).toNat < s.data.length := by
      rcases Nat.lt_or_ge (4 + f).toNat s.data.length with h | h
      · exact h
      · rw [List.getElem?_eq_none h] at hb; exact absurd hb (by simp)
    rw [List.getElem?_eq_getElem hlt] at hb
    have hb2 : s.data[(4 + f).toNat] = b := Option.some.inj hb
    have heq : getsmbiosstringat s f = getsmbiosstring s b := by
      unfold getsmbiosstringat
      simp only [hidx]
      rw [dif_neg (by omega)]
      simp only [List.get_eq_getElem, hb2]
    refine ⟨heq, fun hbad => ?_⟩
    have hempty : getsmbiosstring s b = [] := by
      simp [getsmbiosstring, hbad]
    rw [heq, hempty]
    exact ⟨rfl, by decide⟩

theorem getsmbiosstringat_lookup_witness :
    getsmbiosstringat ⟨1, 5, [1, 5, 0, 0, 0], [[65]]⟩ 1 = lit "n/a" ∧
      getsmbiosstringat ⟨1, 5, [1, 5, 0, 0, 0], [[65]]⟩ 0 = [] :=
  ⟨(getsmbiosstringat_lookup ⟨1, 5, [1, 5, 0, 0, 0], [[65]]⟩ 1 (by decide) (by decide)).1
      (by decide),
    (((getsmbiosstringat_lookup ⟨1, 5, [1, 5, 0, 0, 0], [[65]]⟩ 0 (by decide) (by decide)).2 0
      (by decide)).2 (Or.inl rfl)).1⟩

theorem hexdigit_isupperhex {d : Nat} (h : d < 16) : isupperhex (hexdigit d) := by
  unfold isupperhex hexdigit
  split <;> omega

/-- A byte is printed as exactly two digits: the high one, then the low one. -/
theorem puthex2_byte {x : Nat} (h : x < 256) :
    puthex2 x = [hexdigit (x / 16), hexdigit (x % 16)] := by
  unfold puthex2
  rw [hexdigits]
  by_cases hz : x / 16 = 0
  · simp [hz]
    rfl
  · obtain ⟨n, rfl⟩ : ∃ n, x = n + 1 := ⟨x - 1, by omega⟩
    have hq : (n + 1) / 16 / 16 = 0 := by omega
    have hm : (n + 1) / 16 % 16 = (n + 1) / 16 := by omega
    simp only [hz, if_false]
    rw [hexdigits]
    simp [hq, hm]

theorem exists_cons_of_length_succ {n : Nat} (b : List Nat) (h : b.length = n + 1) :
    ∃ u t, b = u :: t ∧ t.length = n := by
  cases b with
  | nil => simp at h
  | cons u t => exact ⟨u, t, rfl, by simpa using h⟩

theorem formatuuid_bytes (u0 u1 u2 u3 u4 u5 u6 u7 u8 u9 u10 u11 u12 u13 u14 u15 : Nat)
    (h0 : u0 < 256) (h1 : u1 < 256) (h2 : u2 < 256) (h3 : u3 < 256) (h4 : u4 < 256) (h5 : u5 < 256) (h6 : u6 < 256) (h7 : u7 < 256) (h8 : u8 < 256) (h9 : u9 < 256) (h10 : u10 < 256) (h11 : u11 < 256) (h12 : u12 < 256) (h13 : u13 < 256) (h14 : u14 < 256) (h15 : u15 < 256) :
    formatuuid [u0, u1, u2, u3, u4, u5, u6, u7, u8, u9, u10, u11, u12, u13, u14, u15]
      = some [hexdigit (u0 / 16), hexdigit (u0 % 16), hexdigit (u1 / 16), hexdigit (u1 % 16), hexdigit (u2 / 16), hexdigit (u2 % 16), hexdigit (u3 / 16), hexdigit (u3 % 16), 45,
        hexdigit (u4 / 16), hexdigit (u4 % 16), hexdigit (u5 / 16), hexdigit (u5 % 16), 45,
        hexdigit (u6 / 16), hexdigit (u6 % 16), hexdigit (u7 / 16), hexdigit (u7 % 16), 45,
        hexdigit (u8 / 16), hexdigit (u8 % 16), hexdigit (u9 / 16), hexdigit (u9 % 16), 45,
        hexdigit (u10 / 16), hexdigit (u10 % 16), hexdigit (u11 / 16), hexdigit (u11 % 16), hexdigit (u12 / 16), hexdigit (u12 % 16), hexdigit (u13 / 16), hexdigit (u13 % 16), hexdigit (u14 / 16), hexdigit (u14 % 16), hexdigit (u15 / 16), hexdigit (u15 % 16)] := by
  show some (List.flatten _) = _
  rw [puthex2_byte h0, puthex2_byte h1, puthex2_byte h2, puthex2_byte h3, puthex2_byte h4, puthex2_byte h5, puthex2_byte h6, puthex2_byte h7, puthex2_byte h8, puthex2_byte h9, puthex2_byte h10, puthex2_byte h11, puthex2_byte h12, puthex2_byte h13, puthex2_byte h14, puthex2_byte h15]
  rfl

/-- C8, the claim as stated fails: the bytes `01 02 ... 10` are not rendered
with the first three groups byte-swapped. -/
theorem formatuuid_not_byte_swapped :
    formatuuid [1, 2, 3, 4, 5, 6, 7, 8, 9, 10, 11, 12, 13, 14, 15, 16]
      ≠ some (lit "04030201-0605-0807-090A-0B0C0D0E0F10") := by
  decide

/-- C8 as amended: `formatuuid` applied to `01 02 ... 10` returns
"01020304-0506-0708-090A-0B0C0D0E0F10"; for every 16-byte input all five groups
print their bytes in byte order: byte `i` appears as its two uppercase
hexadecimal digits at the position `uuidpos i` of the text. -/
theorem formatuuid_byte_order (b : List Nat) (hlen : b.length = 16)
    (hb : ∀ x ∈ b, x < 256) :
    formatuuid [1, 2, 3, 4, 5, 6, 7, 8, 9, 10, 11, 12, 13, 14, 15, 16]
        = some (lit "01020304-0506-0708-090A-0B0C0D0E0F10") ∧
      ∃ out, formatuuid b = some out ∧
        ∀ i, i < 16 → ∃ v, b[i]? = some v ∧ out[uuidpos i]? = some (hexdigit (v / 16)) ∧
          out[uuidpos i + 1]? = some (hexdigit (v % 16)) := by
  refine ⟨by decide, ?_⟩
  obtain ⟨u0, t0, rfl, hl0⟩ := exists_cons_of_length_succ b hlen
  obtain ⟨u1, t1, rfl, hl1⟩ := exists_cons_of_length_succ t0 hl0
  obtain ⟨u2, t2, rfl, hl2⟩ := exists_cons_of_length_succ t1 hl1
  obtain ⟨u3, t3, rfl, hl3⟩ := exists_cons_of_length_succ t2 hl2
  obtain ⟨u4, t4, rfl, hl4⟩ := exists_cons_of_length_succ t3 hl3
  obtain ⟨u5, t5, rfl, hl5⟩ := exists_cons_of_length_succ t4 hl4
  obtain ⟨u6, t6, rfl, hl6⟩ := exists_cons_of_length_succ t5 hl5
  obtain ⟨u7, t7, rfl, hl7⟩ := exists_cons_of_length_succ t6 hl6
  obtain ⟨u8, t8, rfl, hl8⟩ := exists_cons_of_length_succ t7 hl7
  obtain ⟨u9, t9, rfl, hl9⟩ := exists_cons_of_length_succ t8 hl8
  obtain ⟨u10, t10, rfl, hl10⟩ := exists_cons_of_length_succ t9 hl9
  obtain ⟨u11, t11, rfl, hl11⟩ := exists_cons_of_length_succ t10 hl10
  obtain ⟨u12, t12, rfl, hl12⟩ := exists_cons_of_length_succ t11 hl11
  obtain ⟨u13, t13, rfl, hl13⟩ := exists_cons_of_length_succ t12 hl12
  obtain ⟨u14, t14, rfl, hl14⟩ := exists_cons_of_length_succ t13 hl13
  obtain ⟨u15, t15, rfl, hl15⟩ := exists_cons_of_length_succ t14 hl14
  obtain rfl : t15 = [] := List.length_eq_zero.mp hl15
  simp only [List.mem_cons, List.mem_nil_iff, or_false, forall_eq_or_imp, forall_eq] at hb
  obtain ⟨h0, h1, h2, h3, h4, h5, h6, h7, h8, h9, h10, h11, h12, h13, h14, h15⟩ := hb
  refine ⟨_, formatuuid_bytes u0 u1 u2 u3 u4 u5 u6 u7 u8 u9 u10 u11 u12 u13 u14 u15 h0 h1 h2 h3 h4 h5 h6 h7 h8 h9 h10 h11 h12 h13 h14 h15, ?_⟩
  intro i hi
  interval_cases i <;> exact ⟨_, rfl, rfl, rfl⟩

theorem formatuuid_byte_order_witness :
    [1, 2, 3, 4, 5, 6, 7, 8, 9, 10, 11, 12, 13, 14, 15, 16].length = 16 ∧
      formatuuid [1, 2, 3, 4, 5, 6, 7, 8, 9, 10, 11, 12, 13, 14, 15, 16]
        = some (lit "01020304-0506-0708-090A-0B0C0D0E0F10") :=
  ⟨by decide, (formatuuid_byte_order [1, 2, 3, 4, 5, 6, 7, 8, 9, 10, 11, 12, 13, 14, 15, 16]
    (by decide) (by decide)).1⟩

/-- C9: for every 16-byte input `formatuuid` returns 36 characters, with `-` at
positions 8, 13, 18 and 23 and an uppercase hexadecimal digit everywhere else,
every byte being printed as exactly two digits. -/
theorem formatuuid_shape (b : List Nat) (hlen : b.length = 16) (hb : ∀ x ∈ b, x < 256) :
    ∃ out, formatuuid b = some out ∧ out.length = 36 ∧
      (∀ j c, out[j]? = some c →
        ((j = 8 ∨ j = 13 ∨ j = 18 ∨ j = 23) → c = 45) ∧
          (¬(j = 8 ∨ j = 13 ∨ j = 18 ∨ j = 23) → isupperhex c)) ∧
      ∀ x ∈ b, (puthex2 x).length = 2 := by
  have hdigits : ∀ x ∈ b, (puthex2 x).length = 2 := fun x hx => by
    rw [puthex2_byte (hb x hx)]; rfl
  suffices hmain : ∃ out, formatuuid b = some out ∧ out.length = 36 ∧
      (∀ j c, out[j]? = some c →
        ((j = 8 ∨ j = 13 ∨ j = 18 ∨ j = 23) → c = 45) ∧
          (¬(j = 8 ∨ j = 13 ∨ j = 18 ∨ j = 23) → isupperhex c)) by
    obtain ⟨out, h1, h2, h3⟩ := hmain
    exact ⟨out, h1, h2, h3, hdigits⟩
  clear hdigits
  obtain ⟨u0, t0, rfl, hl0⟩ := exists_cons_of_length_succ b hlen
  obtain ⟨u1, t1, rfl, hl1⟩ := exists_cons_of_length_succ t0 hl0
  obtain ⟨u2, t2, rfl, hl2⟩ := exists_cons_of_length_succ t1 hl1
  obtain ⟨u3, t3, rfl, hl3⟩ := exists_cons_of_length_succ t2 hl2
  obtain ⟨u4, t4, rfl, hl4⟩ := exists_cons_of_length_succ t3 hl3
  obtain ⟨u5, t5, rfl, hl5⟩ := exists_cons_of_length_succ t4 hl4
  obtain ⟨u6, t6, rfl, hl6⟩ := exists_cons_of_length_succ t5 hl5
  obtain ⟨u7, t7, rfl, hl7⟩ := exists_cons_of_length_succ t6 hl6
  obtain ⟨u8, t8, rfl, hl8⟩ := exists_cons_of_length_succ t7 hl7
  obtain ⟨u9, t9, rfl, hl9⟩ := exists_cons_of_length_succ t8 hl8
  obtain ⟨u10, t10, rfl, hl10⟩ := exists_cons_of_length_succ t9 hl9
  obtain ⟨u11, t11, rfl, hl11⟩ := exists_cons_of_length_succ t10 hl10
  obtain ⟨u12, t12, rfl, hl12⟩ := exists_cons_of_length_succ t11 hl11
  obtain ⟨u13, t13, rfl, hl13⟩ := exists_cons_of_length_succ t12 hl12
  obtain ⟨u14, t14, rfl, hl14⟩ := exists_cons_of_length_succ t13 hl13
  obtain ⟨u15, t15, rfl, hl15⟩ := exists_cons_of_length_succ t14 hl14
  obtain rfl : t15 = [] := List.length_eq_zero.mp hl15
  simp only [List.mem_cons, List.mem_nil_iff, or_false, forall_eq_or_imp, forall_eq] at hb
  obtain ⟨h0, h1, h2, h3, h4, h5, h6, h7, h8, h9, h10, h11, h12, h13, h14, h15⟩ := hb
  refine ⟨_, formatuuid_bytes u0 u1 u2 u3 u4 u5 u6 u7 u8 u9 u10 u11 u12 u13 u14 u15 h0 h1 h2 h3 h4 h5 h6 h7 h8 h9 h10 h11 h12 h13 h14 h15, rfl, ?_⟩
  intro j c hc
  have hj : j < 36 := by
    by_contra hge
    rw [List.getElem?_eq_none (by simpa using hge)] at hc
    exact absurd hc (by simp)
  interval_cases j <;> cases hc <;> refine ⟨fun h => ?_, fun h => ?_⟩ <;>
    first
      | rfl
      | exact absurd h (by decide)
      | exact hexdigit_isupperhex (Nat.lt_of_lt_of_le (Nat.mod_lt _ (by decide)) (le_refl _))
      | exact hexdigit_isupperhex (by omega)

theorem formatuuid_shape_witness :
    ∃ out, formatuuid [0, 15, 16, 255, 171, 9, 10, 128, 1, 2, 3, 4, 5, 6, 7, 8] = some out ∧
      out.length = 36 :=
  Exists.imp (fun _ h => And.intro h.1 h.2.1)
    (formatuuid_shape [0, 15, 16, 255, 171, 9, 10, 128, 1, 2, 3, 4, 5, 6, 7, 8] (by decide)
      (by decide))

/-! ## The serial validity test: claim C10 -/

theorem matchesat_iff (needle : List Nat) :
    ∀ hay : List Nat, matchesat needle hay = true ↔ ∃ post, hay = needle ++ post := by
  induction needle with
  | nil => intro hay; simp [matchesat]
  | cons a as ih =>
    intro hay
    cases hay with
    | nil => simp [matchesat]
    | cons b bs =>
      simp only [matchesat, Bool.and_eq_true, decide_eq_true_eq, ih bs, List.cons_append,
        List.cons.injEq]
      constructor
      · rintro ⟨rfl, post, rfl⟩
        exact ⟨post, rfl, rfl⟩
      · rintro ⟨post, rfl, rfl⟩
        exact ⟨rfl, post, rfl⟩

/-- The search finds something exactly when the needle is a substring. -/
theorem find_iff (needle : List Nat) :
    ∀ (hay : List Nat) (pos : Nat),
      find hay needle pos ≠ none ↔ ∃ pre post, hay = pre ++ needle ++ post := by
  intro hay
  induction hay with
  | nil =>
    intro pos
    unfold find
    by_cases hm : matchesat needle [] = true
    · rw [if_pos hm]
      obtain ⟨post, hp⟩ := (matchesat_iff needle []).mp hm
      exact ⟨fun _ => ⟨[], post, by simpa using hp⟩, fun _ => by simp⟩
    · rw [if_neg hm]
      refine ⟨fun h => absurd rfl h, ?_⟩
      rintro ⟨pre, post, hp⟩
      have hpre : pre = [] := by
        cases pre with
        | nil => rfl
        | cons c cs => simp at hp
      subst hpre
      exact absurd ((matchesat_iff needle []).mpr ⟨post, by simpa using hp⟩) hm
  | cons c cs ih =>
    intro pos
    unfold find
    by_cases hm : matchesat needle (c :: cs) = true
    · rw [if_pos hm]
      obtain ⟨post, hp⟩ := (matchesat_iff needle (c :: cs)).mp hm
      exact ⟨fun _ => ⟨[], post, by simpa using hp⟩, fun _ => by simp⟩
    · rw [if_neg hm, ih (pos + 1)]
      constructor
      · rintro ⟨pre, post, rfl⟩
        exact ⟨c :: pre, post, by simp⟩
      · rintro ⟨pre, post, hp⟩
        cases pre with
        | nil => exact absurd ((matchesat_iff needle (c :: cs)).mpr ⟨post, by simpa using hp⟩) hm
        | cons d ds =>
          simp only [List.cons_append, List.cons.injEq] at hp
          exact ⟨ds, post, hp.2⟩

/-- C10: the serial validity test rejects a string exactly when it is empty, or
its lowercased form equals "n/a" or "none", or its lowercased form contains
"o.e.m." or "default". The six literal inputs of the specification are
classified as stated, and the verdict depends only on the lowercased string. -/
theorem validserial_iff :
    (∀ s : List Nat, validserial s = false ↔
      (s = [] ∨ s.map tolower = lit "n/a" ∨ s.map tolower = lit "none" ∨
        (∃ pre post, s.map tolower = pre ++ lit "o.e.m." ++ post) ∨
        (∃ pre post, s.map tolower = pre ++ lit "default" ++ post))) ∧
      validserial (lit "") = false ∧ validserial (lit "N/A") = false ∧
      validserial (lit "None") = false ∧
      validserial (lit "To be filled by O.E.M.") = false ∧
      validserial (lit "Default string") = false ∧
      validserial (lit "SN-88412-X") = true ∧
      (∀ s t : List Nat, s.map tolower = t.map tolower → validserial s = validserial t) := by
  refine ⟨?_, by decide, by decide, by decide, by decide, by decide, by decide, ?_⟩
  · intro s
    rw [← find_iff (lit "o.e.m.") (s.map tolower) 0, ← find_iff (lit "default") (s.map tolower) 0]
    unfold validserial
    by_cases hc : s = [] ∨ s.map tolower = lit "n/a" ∨ s.map tolower = lit "none" ∨
        find (s.map tolower) (lit "o.e.m.") 0 ≠ none ∨ find (s.map tolower) (lit "default") 0 ≠ none
    · rw [if_pos hc]
      exact ⟨fun _ => hc, fun _ => rfl⟩
    · rw [if_neg hc]
      exact ⟨fun h => absurd h (by decide), fun h => absurd h hc⟩
  · intro s t h
    have hnil : s = [] ↔ t = [] := by
      have hl : s.length = t.length := by
        simpa using congrArg List.length h
      rw [← List.length_eq_zero, ← List.length_eq_zero (l := t), hl]
    unfold validserial
    simp only [h, hnil]

/-! ## The attribute resolver `getbiosinfo` -/

/-- A loop over the structures appends, for each structure of the wanted type
and in table order, the block of items its body pushes. -/
theorem pushloop_blocks (body : smbiosstructure → Option (List hardwareitem)) (t : Nat) :
    ∀ (structures : List smbiosstructure) (items : List hardwareitem),
      (∀ s ∈ structures, s.type = t → ∃ r, body s = some r) →
      ∃ blocks, pushloop body t items structures = some (items ++ blocks.flatten) ∧
        List.Forall₂ (fun s b => body s = some b)
          (structures.filter fun s => decide (s.type = t)) blocks := by
  intro structures
  induction structures with
  | nil =>
    intro items _
    exact ⟨[], by simp [pushloop], by simp⟩
  | cons s rest ih =>
    intro items hall
    have hrest : ∀ x ∈ rest, x.type = t → ∃ r, body x = some r :=
      fun x hx => hall x (List.mem_cons_of_mem _ hx)
    by_cases ht : s.type = t
    · obtain ⟨r, hr⟩ := hall s (List.mem_cons_self _ _) ht
      obtain ⟨blocks, hb, hf⟩ := ih (items ++ r) hrest
      refine ⟨r :: blocks, ?_, ?_⟩
      · rw [pushloop, if_pos ht, hr, Option.some_bind, hb]
        simp
      · rw [List.filter_cons_of_pos (by simpa using ht)]
        exact List.Forall₂.cons hr hf
    · obtain ⟨blocks, hb, hf⟩ := ih items hrest
      refine ⟨blocks, ?_, ?_⟩
      · rw [pushloop, if_neg ht, hb]
      · rw [List.filter_cons_of_neg (by simpa using ht)]
        exact hf

/-- A block that belongs to a structure of the list sits, whole, inside the
concatenation of the blocks. -/
theorem block_of_mem {R : smbiosstructure → List hardwareitem → Prop} :
    ∀ {l : List smbiosstructure} {blocks : List (List hardwareitem)},
      List.Forall₂ R l blocks → ∀ s ∈ l,
        ∃ b pre post, R s b ∧ blocks.flatten = pre ++ b ++ post := by
  intro l blocks h
  induction h with
  | nil => intro s hs; simp at hs
  | @cons a b l1 l2 hab _ ih =>
    intro s hs
    rcases List.mem_cons.mp hs with rfl | hs
    · exact ⟨b, [], l2.flatten, hab, by simp⟩
    · obtain ⟨b2, pre, post, hr, he⟩ := ih s hs
      exact ⟨b2, b ++ pre, post, hr, by simp [he]⟩

/-- Every item of a concatenation of blocks lies in one of the blocks. -/
theorem mem_block_of_mem_flatten {R : smbiosstructure → List hardwareitem → Prop} :
    ∀ {l : List smbiosstructure} {blocks : List (List hardwareitem)},
      List.Forall₂ R l blocks → ∀ item ∈ blocks.flatten,
        ∃ s b, s ∈ l ∧ R s b ∧ item ∈ b := by
  intro l blocks h
  induction h with
  | nil => intro item hi; simp at hi
  | @cons a b l1 l2 hab _ ih =>
    intro item hi
    rw [List.flatten_cons, List.mem_append] at hi
    rcases hi with hi | hi
    · exact ⟨a, b, List.mem_cons_self _ _, hab, hi⟩
    · obtain ⟨s, b2, hs, hr, hm⟩ := ih item hi
      exact ⟨s, b2, List.mem_cons_of_mem _ hs, hr, hm⟩

theorem formatuuid_some (u : List Nat) (h : 16 ≤ u.length) : ∃ r, formatuuid u = some r := by
  have hr : readrange u 0 16 = some (u.take 16) := by
    rw [readrange_of_le (by omega)]; rfl
  have hlen : (u.take 16).length = 16 := by
    rw [List.length_take]; omega
  unfold formatuuid
  rw [hr]
  generalize u.take 16 = b at hlen
  obtain ⟨u0, t0, rfl, hl0⟩ := exists_cons_of_length_succ b hlen
  obtain ⟨u1, t1, rfl, hl1⟩ := exists_cons_of_length_succ t0 hl0
  obtain ⟨u2, t2, rfl, hl2⟩ := exists_cons_of_length_succ t1 hl1
  obtain ⟨u3, t3, rfl, hl3⟩ := exists_cons_of_length_succ t2 hl2
  obtain ⟨u4, t4, rfl, hl4⟩ := exists_cons_of_length_succ t3 hl3
  obtain ⟨u5, t5, rfl, hl5⟩ := exists_cons_of_length_succ t4 hl4
  obtain ⟨u6, t6, rfl, hl6⟩ := exists_cons_of_length_succ t5 hl5
  obtain ⟨u7, t7, rfl, hl7⟩ := exists_cons_of_length_succ t6 hl6
  obtain ⟨u8, t8, rfl, hl8⟩ := exists_cons_of_length_succ t7 hl7
  obtain ⟨u9, t9, rfl, hl9⟩ := exists_cons_of_length_succ t8 hl8
  obtain ⟨u10, t10, rfl, hl10⟩ := exists_cons_of_length_succ t9 hl9
  obtain ⟨u11, t11, rfl, hl11⟩ := exists_cons_of_length_succ t10 hl10
  obtain ⟨u12, t12, rfl, hl12⟩ := exists_cons_of_length_succ t11 hl11
  obtain ⟨u13, t13, rfl, hl13⟩ := exists_cons_of_length_succ t12 hl12
  obtain ⟨u14, t14, rfl, hl14⟩ := exists_cons_of_length_succ t13 hl13
  obtain ⟨u15, t15, rfl, hl15⟩ := exists_cons_of_length_succ t14 hl14
  obtain rfl : t15 = [] := List.length_eq_zero.mp hl15
  exact ⟨_, rfl⟩

/-- What one type-1 structure pushes: manufacturer, product name, version,
version again, one serial number item, and a uuid item exactly when the data
has at least 24 bytes. -/
theorem systemproductitems_shape (p : platform) (s : smbiosstructure) :
    ∃ serial uu, systemproductitems p s = some (
        [⟨lit "systemproduct", lit "manufacturer", towstring (getsmbiosstringat s 0), lit ""⟩,
         ⟨lit "systemproduct", lit "productname", towstring (getsmbiosstringat s 1), lit ""⟩,
         ⟨lit "systemproduct", lit "version", towstring (getsmbiosstringat s 2), lit ""⟩,
         ⟨lit "systemproduct", lit "version", towstring (getsmbiosstringat s 2), lit ""⟩,
         ⟨lit "systemproduct", lit "serialnumber", serial, lit ""⟩] ++ uu) ∧
      (validserial (getsmbiosstringat s 3) = true →
        serial = towstring (getsmbiosstringat s 3)) ∧
      (validserial (getsmbiosstringat s 3) = false →
        p.getwmiproperty "Win32_ComputerSystemProduct" "IdentifyingNumber" ≠ [] →
        serial = p.getwmiproperty "Win32_ComputerSystemProduct" "IdentifyingNumber") ∧
      (validserial (getsmbiosstringat s 3) = false →
        p.getwmiproperty "Win32_ComputerSystemProduct" "IdentifyingNumber" = [] →
        serial = towstring (getsmbiosstringat s 3)) ∧
      ((s.data.length < 24 ∧ uu = []) ∨
        (24 ≤ s.data.length ∧ ∃ u, formatuuid (s.data.drop 8) = some u ∧
          uu = [⟨lit "systemproduct", lit "uuid", towstring u, lit ""⟩])) := by
  have huu : ∀ items2 : List hardwareitem, ∃ uu,
      (if s.data.length ≥ 24 then
          (formatuuid (s.data.drop 8)).bind fun uuid =>
            some (items2 ++ [⟨lit "systemproduct", lit "uuid", towstring uuid, lit ""⟩])
        else some items2) = some (items2 ++ uu) ∧
      ((s.data.length < 24 ∧ uu = []) ∨
        (24 ≤ s.data.length ∧ ∃ u, formatuuid (s.data.drop 8) = some u ∧
          uu = [⟨lit "systemproduct", lit "uuid", towstring u, lit ""⟩])) := by
    intro items2
    by_cases hd : s.data.length ≥ 24
    · obtain ⟨u, hu⟩ := formatuuid_some (s.data.drop 8) (by rw [List.length_drop]; omega)
      exact ⟨[⟨lit "systemproduct", lit "uuid", towstring u, lit ""⟩],
        by rw [if_pos hd, hu]; rfl, Or.inr ⟨hd, u, hu, rfl⟩⟩
    · exact ⟨[], by rw [if_neg hd, List.append_nil], Or.inl ⟨by omega, rfl⟩⟩
  by_cases hv : validserial (getsmbiosstringat s 3) = false
  · by_cases hw : p.getwmiproperty "Win32_ComputerSystemProduct" "IdentifyingNumber" ≠ []
    · obtain ⟨uu, he, hc⟩ := huu
        [⟨lit "systemproduct", lit "manufacturer", towstring (getsmbiosstringat s 0), lit ""⟩,
         ⟨lit "systemproduct", lit "productname", towstring (getsmbiosstringat s 1), lit ""⟩,
         ⟨lit "systemproduct", lit "version", towstring (getsmbiosstringat s 2), lit ""⟩,
         ⟨lit "systemproduct", lit "version", towstring (getsmbiosstringat s 2), lit ""⟩,
         ⟨lit "systemproduct", lit "serialnumber",
           p.getwmiproperty "Win32_ComputerSystemProduct" "IdentifyingNumber", lit ""⟩]
      refine ⟨_, uu, ?_, fun h => ?_, fun _ _ => rfl, fun _ h => absurd h hw, hc⟩
      · rw [← he]
        simp only [systemproductitems, hv, if_pos hw, if_true, List.cons_append, List.nil_append]
      · rw [h] at hv; exact absurd hv (by decide)
    · obtain ⟨uu, he, hc⟩ := huu
        [⟨lit "systemproduct", lit "manufacturer", towstring (getsmbiosstringat s 0), lit ""⟩,
         ⟨lit "systemproduct", lit "productname", towstring (getsmbiosstringat s 1), lit ""⟩,
         ⟨lit "systemproduct", lit "version", towstring (getsmbiosstringat s 2), lit ""⟩,
         ⟨lit "systemproduct", lit "version", towstring (getsmbiosstringat s 2), lit ""⟩,
         ⟨lit "systemproduct", lit "serialnumber", towstring (getsmbiosstringat s 3), lit ""⟩]
      refine ⟨_, uu, ?_, fun _ => rfl, fun _ h => absurd h hw, fun _ _ => rfl, hc⟩
      rw [← he]
      simp only [systemproductitems, hv, if_neg hw, if_true, List.cons_append, List.nil_append]
  · obtain ⟨uu, he, hc⟩ := huu
      [⟨lit "systemproduct", lit "manufacturer", towstring (getsmbiosstringat s 0), lit ""⟩,
       ⟨lit "systemproduct", lit "productname", towstring (getsmbiosstringat s 1), lit ""⟩,
       ⟨lit "systemproduct", lit "version", towstring (getsmbiosstringat s 2), lit ""⟩,
       ⟨lit "systemproduct", lit "version", towstring (getsmbiosstringat s 2), lit ""⟩,
       ⟨lit "systemproduct", lit "serialnumber", towstring (getsmbiosstringat s 3), lit ""⟩]
    refine ⟨_, uu, ?_, fun _ => rfl, fun h => absurd h hv, fun h => absurd h hv, hc⟩
    rw [← he]
    simp only [systemproductitems, if_neg hv, List.cons_append, List.nil_append]

/-- What one type-2 structure pushes: manufacturer, product, version and one
serial number item, whose value is the firmware serial when that is valid and
otherwise the first present one of: registry value `BaseBoardSerialNumber`,
registry value `BaseBoardSerial`, management query; a registry value is
present when it is neither "n/a" nor empty. -/
theorem baseboarditems_shape (p : platform) (s : smbiosstructure) :
    ∃ serial, baseboarditems p s =
        [⟨lit "baseboard", lit "manufacturer", towstring (getsmbiosstringat s 0), lit ""⟩,
         ⟨lit "baseboard", lit "product", towstring (getsmbiosstringat s 1), lit ""⟩,
         ⟨lit "baseboard", lit "version", towstring (getsmbiosstringat s 2), lit ""⟩,
         ⟨lit "baseboard", lit "serialnumber", serial, lit ""⟩] ∧
      (validserial (getsmbiosstringat s 3) = true → serial = towstring (getsmbiosstringat s 3)) ∧
      (validserial (getsmbiosstringat s 3) = false →
        ((p.readregistrystringraw bbkey "BaseBoardSerialNumber" ≠ lit "n/a" ∧ p.readregistrystringraw bbkey "BaseBoardSerialNumber" ≠ []) →
          serial = p.readregistrystringraw bbkey "BaseBoardSerialNumber") ∧
        (¬(p.readregistrystringraw bbkey "BaseBoardSerialNumber" ≠ lit "n/a" ∧ p.readregistrystringraw bbkey "BaseBoardSerialNumber" ≠ []) →
          (p.readregistrystringraw bbkey "BaseBoardSerial" ≠ lit "n/a" ∧ p.readregistrystringraw bbkey "BaseBoardSerial" ≠ []) →
          serial = p.readregistrystringraw bbkey "BaseBoardSerial") ∧
        (¬(p.readregistrystringraw bbkey "BaseBoardSerialNumber" ≠ lit "n/a" ∧ p.readregistrystringraw bbkey "BaseBoardSerialNumber" ≠ []) →
          ¬(p.readregistrystringraw bbkey "BaseBoardSerial" ≠ lit "n/a" ∧ p.readregistrystringraw bbkey "BaseBoardSerial" ≠ []) →
          (p.getwmiproperty "Win32_BaseBoard" "SerialNumber" ≠ [] → serial = p.getwmiproperty "Win32_BaseBoard" "SerialNumber") ∧
          (p.getwmiproperty "Win32_BaseBoard" "SerialNumber" = [] → serial = towstring (getsmbiosstringat s 3)))) := by
  by_cases hv : validserial (getsmbiosstringat s 3) = false
  · by_cases h1 : p.readregistrystringraw bbkey "BaseBoardSerialNumber" = lit "n/a" ∨ p.readregistrystringraw bbkey "BaseBoardSerialNumber" = []
    · have h1n : ¬(p.readregistrystringraw bbkey "BaseBoardSerialNumber" ≠ lit "n/a" ∧ p.readregistrystringraw bbkey "BaseBoardSerialNumber" ≠ []) := by
        intro h; rcases h1 with h1 | h1
        · exact h.1 h1
        · exact h.2 h1
      by_cases h2 : p.readregistrystringraw bbkey "BaseBoardSerial" ≠ lit "n/a" ∧ p.readregistrystringraw bbkey "BaseBoardSerial" ≠ []
      · refine ⟨p.readregistrystringraw bbkey "BaseBoardSerial", ?_, fun h => ?_, fun _ =>
          ⟨fun h => absurd h h1n, fun _ _ => rfl, fun _ h => absurd h2 h⟩⟩
        · simp only [baseboarditems, hv, if_pos h1, if_pos h2, if_true, List.cons_append,
            List.nil_append]
        · rw [h] at hv; exact absurd hv (by decide)
      · by_cases hw : p.getwmiproperty "Win32_BaseBoard" "SerialNumber" ≠ []
        · refine ⟨p.getwmiproperty "Win32_BaseBoard" "SerialNumber", ?_, fun h => ?_, fun _ =>
            ⟨fun h => absurd h h1n, fun _ h => absurd h h2,
              fun _ _ => ⟨fun _ => rfl, fun h => absurd h hw⟩⟩⟩
          · simp only [baseboarditems, hv, if_pos h1, if_neg h2, if_pos hw, if_true,
              List.cons_append, List.nil_append]
          · rw [h] at hv; exact absurd hv (by decide)
        · refine ⟨towstring (getsmbiosstringat s 3), ?_, fun _ => rfl, fun _ =>
            ⟨fun h => absurd h h1n, fun _ h => absurd h h2,
              fun _ _ => ⟨fun h => absurd h hw, fun _ => rfl⟩⟩⟩
          simp only [baseboarditems, hv, if_pos h1, if_neg h2, if_neg hw, if_true,
            List.cons_append, List.nil_append]
    · have h1p : p.readregistrystringraw bbkey "BaseBoardSerialNumber" ≠ lit "n/a" ∧ p.readregistrystringraw bbkey "BaseBoardSerialNumber" ≠ [] :=
        ⟨fun h => h1 (Or.inl h), fun h => h1 (Or.inr h)⟩
      refine ⟨p.readregistrystringraw bbkey "BaseBoardSerialNumber", ?_, fun h => ?_, fun _ =>
        ⟨fun _ => rfl, fun h => absurd h1p h, fun h => absurd h1p h⟩⟩
      · simp only [baseboarditems, hv, if_neg h1, if_pos h1p, if_true, List.cons_append,
          List.nil_append]
      · rw [h] at hv; exact absurd hv (by decide)
  · refine ⟨towstring (getsmbiosstringat s 3), ?_, fun _ => rfl, fun h => absurd h hv⟩
    simp only [baseboarditems, if_neg hv, List.cons_append, List.nil_append]

/-- The baseboard items read from the registry: three values as read, and the
serial from the first present one of `BaseBoardSerialNumber`, `BaseBoardSerial`,
else whatever the management query answers. -/
theorem registrybaseboard_shape (p : platform) :
    registrybaseboard p =
      [⟨lit "baseboard", lit "manufacturer",
          p.readregistrystringraw bbkey "BaseBoardManufacturer", lit ""⟩,
       ⟨lit "baseboard", lit "product", p.readregistrystringraw bbkey "BaseBoardProduct", lit ""⟩,
       ⟨lit "baseboard", lit "version", p.readregistrystringraw bbkey "BaseBoardVersion", lit ""⟩,
       ⟨lit "baseboard", lit "serialnumber",
          (if p.readregistrystringraw bbkey "BaseBoardSerialNumber" ≠ lit "n/a" ∧ p.readregistrystringraw bbkey "BaseBoardSerialNumber" ≠ [] then p.readregistrystringraw bbkey "BaseBoardSerialNumber"
            else if p.readregistrystringraw bbkey "BaseBoardSerial" ≠ lit "n/a" ∧ p.readregistrystringraw bbkey "BaseBoardSerial" ≠ [] then p.readregistrystringraw bbkey "BaseBoardSerial"
            else p.getwmiproperty "Win32_BaseBoard" "SerialNumber"), lit ""⟩] := by
  unfold registrybaseboard
  by_cases h1 : p.readregistrystringraw bbkey "BaseBoardSerialNumber" = lit "n/a" ∨ p.readregistrystringraw bbkey "BaseBoardSerialNumber" = []
  · have h1n : ¬(p.readregistrystringraw bbkey "BaseBoardSerialNumber" ≠ lit "n/a" ∧ p.readregistrystringraw bbkey "BaseBoardSerialNumber" ≠ []) := by
      intro h; rcases h1 with h1 | h1
      · exact h.1 h1
      · exact h.2 h1
    by_cases h2 : p.readregistrystringraw bbkey "BaseBoardSerial" = lit "n/a" ∨ p.readregistrystringraw bbkey "BaseBoardSerial" = []
    · have h2n : ¬(p.readregistrystringraw bbkey "BaseBoardSerial" ≠ lit "n/a" ∧ p.readregistrystringraw bbkey "BaseBoardSerial" ≠ []) := by
        intro h; rcases h2 with h2 | h2
        · exact h.1 h2
        · exact h.2 h2
      simp only [if_pos h1, if_pos h2, if_neg h1n, if_neg h2n]
    · have h2p : p.readregistrystringraw bbkey "BaseBoardSerial" ≠ lit "n/a" ∧ p.readregistrystringraw bbkey "BaseBoardSerial" ≠ [] :=
        ⟨fun h => h2 (Or.inl h), fun h => h2 (Or.inr h)⟩
      simp only [if_pos h1, if_neg h2, if_neg h1n, if_pos h2p]
  · have h1p : p.readregistrystringraw bbkey "BaseBoardSerialNumber" ≠ lit "n/a" ∧ p.readregistrystringraw bbkey "BaseBoardSerialNumber" ≠ [] :=
      ⟨fun h => h1 (Or.inl h), fun h => h1 (Or.inr h)⟩
    simp only [if_neg h1, if_pos h1p]

theorem biositems_category (s : smbiosstructure) :
    ∀ item ∈ biositems s, item.category = lit "bios" ∧ item.name ≠ lit "error" := by
  intro item h
  simp only [biositems, List.mem_cons, List.mem_singleton, List.mem_nil_iff, or_false] at h
  rcases h with rfl | rfl | rfl
  · exact ⟨rfl, (by decide : lit "vendor" ≠ lit "error")⟩
  · exact ⟨rfl, (by decide : lit "version" ≠ lit "error")⟩
  · exact ⟨rfl, (by decide : lit "releasedate" ≠ lit "error")⟩

theorem chassisitems_category (s : smbiosstructure) :
    ∀ item ∈ chassisitems s, item.category = lit "chassis" := by
  intro item h
  unfold chassisitems at h
  by_cases hd : s.data.length > 1
  · simp only [dif_pos hd, List.mem_append, List.mem_cons, List.mem_singleton,
      List.mem_nil_iff, or_false] at h
    rcases h with (rfl | rfl | rfl | rfl) | rfl <;> rfl
  · simp only [dif_neg hd, List.mem_cons, List.mem_singleton, List.mem_nil_iff, or_false] at h
    rcases h with rfl | rfl | rfl | rfl <;> rfl

theorem baseboarditems_category (p : platform) (s : smbiosstructure) :
    baseboarditems p s ≠ [] ∧ ∀ item ∈ baseboarditems p s, item.category = lit "baseboard" := by
  obtain ⟨serial, he, _⟩ := baseboarditems_shape p s
  rw [he]
  refine ⟨by simp, fun item h => ?_⟩
  simp only [List.mem_cons, List.mem_singleton, List.mem_nil_iff, or_false] at h
  rcases h with rfl | rfl | rfl | rfl <;> rfl

theorem systemproductitems_category (p : platform) (s : smbiosstructure)
    (b : List hardwareitem) (hb : systemproductitems p s = some b) :
    b ≠ [] ∧ ∀ item ∈ b, item.category = lit "systemproduct" := by
  obtain ⟨serial, uu, he, _, _, _, hu⟩ := systemproductitems_shape p s
  rw [he] at hb
  obtain rfl := Option.some.inj hb
  refine ⟨by simp, fun item h => ?_⟩
  rcases hu with ⟨_, rfl⟩ | ⟨_, u, _, rfl⟩
  · simp only [List.append_nil, List.mem_cons, List.mem_singleton, List.mem_nil_iff,
      or_false] at h
    rcases h with rfl | rfl | rfl | rfl | rfl <;> rfl
  · simp only [List.mem_append, List.mem_cons, List.mem_singleton, List.mem_nil_iff,
      or_false] at h
    rcases h with (rfl | rfl | rfl | rfl | rfl) | rfl <;> rfl

/-- The four loops produce, category after category, one block of items for
each structure of the category, in table order. -/
theorem firmwareitems_decompose (p : platform) (structures : List smbiosstructure) :
    ∃ b0 b1 b2 b3,
      List.Forall₂ (fun s b => b = biositems s) (oftype 0 structures) b0 ∧
      List.Forall₂ (fun s b => systemproductitems p s = some b) (oftype 1 structures) b1 ∧
      List.Forall₂ (fun s b => b = baseboarditems p s) (oftype 2 structures) b2 ∧
      List.Forall₂ (fun s b => b = chassisitems s) (oftype 3 structures) b3 ∧
      firmwareitems p structures
        = some (b0.flatten ++ b1.flatten ++ b2.flatten ++ b3.flatten) := by
  obtain ⟨b0, h0, f0⟩ := pushloop_blocks (fun s => some (biositems s)) 0 structures []
    (fun s _ _ => ⟨_, rfl⟩)
  obtain ⟨b1, h1, f1⟩ := pushloop_blocks (systemproductitems p) 1 structures ([] ++ b0.flatten)
    (fun s _ _ => by
      obtain ⟨serial, uu, he, _⟩ := systemproductitems_shape p s
      exact ⟨_, he⟩)
  obtain ⟨b2, h2, f2⟩ := pushloop_blocks (fun s => some (baseboarditems p s)) 2 structures
    ([] ++ b0.flatten ++ b1.flatten) (fun s _ _ => ⟨_, rfl⟩)
  obtain ⟨b3, h3, f3⟩ := pushloop_blocks (fun s => some (chassisitems s)) 3 structures
    ([] ++ b0.flatten ++ b1.flatten ++ b2.flatten) (fun s _ _ => ⟨_, rfl⟩)
  refine ⟨b0, b1, b2, b3, f0.imp (fun _ _ h => (Option.some.inj h).symm), f1,
    f2.imp (fun _ _ h => (Option.some.inj h).symm),
    f3.imp (fun _ _ h => (Option.some.inj h).symm), ?_⟩
  unfold firmwareitems
  rw [h0, Option.some_bind, h1, Option.some_bind, h2, Option.some_bind, h3]
  simp

theorem lit_categories_distinct :
    lit "bios" ≠ lit "baseboard" ∧ lit "bios" ≠ lit "systemproduct" ∧
      lit "systemproduct" ≠ lit "baseboard" ∧ lit "chassis" ≠ lit "baseboard" ∧
      lit "chassis" ≠ lit "systemproduct" ∧ lit "baseboard" ≠ lit "systemproduct" ∧
      lit "systemproduct" ≠ lit "bios" ∧ lit "baseboard" ≠ lit "bios" ∧
      lit "chassis" ≠ lit "bios" := by
  decide

/-- The categories of the items inside the four groups of blocks. -/
theorem blocks_categories (p : platform) {structures : List smbiosstructure}
    {b0 b1 b2 b3 : List (List hardwareitem)}
    (f0 : List.Forall₂ (fun s b => b = biositems s) (oftype 0 structures) b0)
    (f1 : List.Forall₂ (fun s b => systemproductitems p s = some b) (oftype 1 structures) b1)
    (f2 : List.Forall₂ (fun s b => b = baseboarditems p s) (oftype 2 structures) b2)
    (f3 : List.Forall₂ (fun s b => b = chassisitems s) (oftype 3 structures) b3) :
    (∀ item ∈ b0.flatten, item.category = lit "bios" ∧ item.name ≠ lit "error") ∧
      (∀ item ∈ b1.flatten, item.category = lit "systemproduct") ∧
      (∀ item ∈ b2.flatten, item.category = lit "baseboard") ∧
      (∀ item ∈ b3.flatten, item.category = lit "chassis") := by
  refine ⟨fun item h => ?_, fun item h => ?_, fun item h => ?_, fun item h => ?_⟩
  · obtain ⟨s, b, _, rfl, hm⟩ := mem_block_of_mem_flatten f0 item h
    exact biositems_category s item hm
  · obtain ⟨s, b, _, hb, hm⟩ := mem_block_of_mem_flatten f1 item h
    exact (systemproductitems_category p s b hb).2 item hm
  · obtain ⟨s, b, _, rfl, hm⟩ := mem_block_of_mem_flatten f2 item h
    exact (baseboarditems_category p s).2 item hm
  · obtain ⟨s, b, _, rfl, hm⟩ := mem_block_of_mem_flatten f3 item h
    exact chassisitems_category s item hm

/-- For a non-empty payload the result of `getbiosinfo` is the items of the
four loops, then the registry baseboard items when the table has no type-2
structure, then the registry system product items when it has no type-1
structure. -/
theorem getbiosinfo_decompose (p : platform) (data : List Nat)
    (structures : List smbiosstructure) (hne : data ≠ [])
    (hparse : parsesmbiosstructures data = some structures) :
    ∃ b0 b1 b2 b3,
      List.Forall₂ (fun s b => b = biositems s) (oftype 0 structures) b0 ∧
      List.Forall₂ (fun s b => systemproductitems p s = some b) (oftype 1 structures) b1 ∧
      List.Forall₂ (fun s b => b = baseboarditems p s) (oftype 2 structures) b2 ∧
      List.Forall₂ (fun s b => b = chassisitems s) (oftype 3 structures) b3 ∧
      firmwareitems p structures
        = some (b0.flatten ++ b1.flatten ++ b2.flatten ++ b3.flatten) ∧
      getbiosinfo p data
        = some (b0.flatten ++ b1.flatten ++ b2.flatten ++ b3.flatten
            ++ (if oftype 2 structures = [] then registrybaseboard p else [])
            ++ (if oftype 1 structures = [] then registrysystemproduct p else [])) := by
  obtain ⟨b0, b1, b2, b3, f0, f1, f2, f3, hfw⟩ := firmwareitems_decompose p structures
  obtain ⟨c0, c1, c2, c3⟩ := blocks_categories p f0 f1 f2 f3
  obtain ⟨d1, d2, d3, d4, d5, d6, _⟩ := lit_categories_distinct
  refine ⟨b0, b1, b2, b3, f0, f1, f2, f3, hfw, ?_⟩
  have hbb : (b0.flatten ++ b1.flatten ++ b2.flatten ++ b3.flatten).any
      (fun item => decide (item.category = lit "baseboard")) = false
        ↔ oftype 2 structures = [] := by
    constructor
    · intro hany
      by_contra hne2
      obtain ⟨s, l1, hl⟩ := List.exists_cons_of_ne_nil hne2
      rw [hl] at f2
      obtain ⟨b, l2, hb, _, rfl⟩ := List.forall₂_cons_left_iff.mp f2
      · obtain ⟨hnil, hcat⟩ := baseboarditems_category p s
        subst hb
        obtain ⟨item, hitem⟩ := List.exists_mem_of_ne_nil _ hnil
        have : (b0.flatten ++ b1.flatten ++ (baseboarditems p s :: l2).flatten
            ++ b3.flatten).any (fun item => decide (item.category = lit "baseboard")) = true :=
          List.any_eq_true.mpr ⟨item, by simp [hitem], by simpa using hcat item hitem⟩
        rw [hany] at this
        exact absurd this (by decide)
    · intro hnil
      rw [hnil] at f2
      obtain rfl := List.forall₂_nil_left_iff.mp f2
      rw [Bool.eq_false_iff]
      intro hany
      obtain ⟨item, hm, hc⟩ := List.any_eq_true.mp hany
      have hc2 : item.category = lit "baseboard" := by simpa using hc
      simp only [List.flatten_nil, List.append_nil, List.mem_append] at hm
      rcases hm with (hm | hm) | hm
      · exact d1 ((c0 item hm).1.symm.trans hc2)
      · exact d3 ((c1 item hm).symm.trans hc2)
      · exact d4 ((c3 item hm).symm.trans hc2)
  have hsp : (b0.flatten ++ b1.flatten ++ b2.flatten ++ b3.flatten).any
      (fun item => decide (item.category = lit "systemproduct")) = false
        ↔ oftype 1 structures = [] := by
    constructor
    · intro hany
      by_contra hne1
      obtain ⟨s, l1, hl⟩ := List.exists_cons_of_ne_nil hne1
      rw [hl] at f1
      obtain ⟨b, l2, hb, _, rfl⟩ := List.forall₂_cons_left_iff.mp f1
      · obtain ⟨hnil, hcat⟩ := systemproductitems_category p s b hb
        obtain ⟨item, hitem⟩ := List.exists_mem_of_ne_nil _ hnil
        have : (b0.flatten ++ (b :: l2).flatten ++ b2.flatten
            ++ b3.flatten).any (fun item => decide (item.category = lit "systemproduct"))
              = true :=
          List.any_eq_true.mpr ⟨item, by simp [hitem], by simpa using hcat item hitem⟩
        rw [hany] at this
        exact absurd this (by decide)
    · intro hnil
      rw [hnil] at f1
      obtain rfl := List.forall₂_nil_left_iff.mp f1
      rw [Bool.eq_false_iff]
      intro hany
      obtain ⟨item, hm, hc⟩ := List.any_eq_true.mp hany
      have hc2 : item.category = lit "systemproduct" := by simpa using hc
      simp only [List.flatten_nil, List.append_nil, List.mem_append] at hm
      rcases hm with (hm | hm) | hm
      · exact d2 ((c0 item hm).1.symm.trans hc2)
      · exact d6 ((c2 item hm).symm.trans hc2)
      · exact d5 ((c3 item hm).symm.trans hc2)
  unfold getbiosinfo
  rw [if_neg hne, hparse, Option.some_bind, hfw, Option.some_bind]
  by_cases h2 : oftype 2 structures = [] <;> by_cases h1 : oftype 1 structures = []
  · simp only [hbb.mpr h2, hsp.mpr h1, h2, h1, if_true]
  · have hs : ¬_ := fun h => h1 (hsp.mp h)
    simp only [hbb.mpr h2, hs, h2, h1, if_true, if_false, List.append_nil]
  · have hb : ¬_ := fun h => h2 (hbb.mp h)
    simp only [hsp.mpr h1, hb, h2, h1, if_true, if_false, List.append_nil]
  · have hb : ¬_ := fun h => h2 (hbb.mp h)
    have hs : ¬_ := fun h => h1 (hsp.mp h)
    simp only [hb, hs, h2, h1, if_false, List.append_nil]

theorem mem_oftype {t : Nat} {structures : List smbiosstructure} {s : smbiosstructure}
    (hs : s ∈ structures) (ht : s.type = t) : s ∈ oftype t structures := by
  unfold oftype
  exact List.mem_filter.mpr ⟨hs, by simpa using ht⟩

/-- The items of a decoded type-2 structure appear, as one block, in the
result of `getbiosinfo`. -/
theorem getbiosinfo_baseboard_block (p : platform) (data : List Nat)
    (structures : List smbiosstructure) (s : smbiosstructure) (hne : data ≠ [])
    (hparse : parsesmbiosstructures data = some structures) (hs : s ∈ structures)
    (ht : s.type = 2) :
    ∃ pre post, getbiosinfo p data = some (pre ++ baseboarditems p s ++ post) := by
  obtain ⟨b0, b1, b2, b3, _, _, f2, _, _, he⟩ :=
    getbiosinfo_decompose p data structures hne hparse
  obtain ⟨b, pre, post, hb, hfl⟩ := block_of_mem f2 s (mem_oftype hs ht)
  subst hb
  exact ⟨b0.flatten ++ b1.flatten ++ pre,
    post ++ b3.flatten
      ++ (if oftype 2 structures = [] then registrybaseboard p else [])
      ++ (if oftype 1 structures = [] then registrysystemproduct p else []),
    by rw [he, hfl]; simp only [List.append_assoc]⟩

/-- C13: for every decoded type-2 structure the serial number item carries the
firmware serial when that is valid, whatever the three other sources hold;
when it is invalid it carries the registry value `BaseBoardSerialNumber` if
that is present (neither "n/a" nor empty), else the registry value
`BaseBoardSerial` if that is present, else the answer of the management query
for `Win32_BaseBoard.SerialNumber` if that is not empty. -/
theorem getbiosinfo_baseboard_serial (p : platform) (data : List Nat)
    (structures : List smbiosstructure) (s : smbiosstructure) (hne : data ≠ [])
    (hparse : parsesmbiosstructures data = some structures) (hs : s ∈ structures)
    (ht : s.type = 2) :
    ∃ serial pre post,
      getbiosinfo p data = some (pre ++ [⟨lit "baseboard", lit "manufacturer", towstring (getsmbiosstringat s 0), lit ""⟩,
         ⟨lit "baseboard", lit "product", towstring (getsmbiosstringat s 1), lit ""⟩,
         ⟨lit "baseboard", lit "version", towstring (getsmbiosstringat s 2), lit ""⟩,
         ⟨lit "baseboard", lit "serialnumber", serial, lit ""⟩] ++ post) ∧
      (validserial (getsmbiosstringat s 3) = true → serial = towstring (getsmbiosstringat s 3)) ∧
      (validserial (getsmbiosstringat s 3) = false →
        ((p.readregistrystringraw bbkey "BaseBoardSerialNumber" ≠ lit "n/a" ∧ p.readregistrystringraw bbkey "BaseBoardSerialNumber" ≠ []) →
          serial = p.readregistrystringraw bbkey "BaseBoardSerialNumber") ∧
        (¬(p.readregistrystringraw bbkey "BaseBoardSerialNumber" ≠ lit "n/a" ∧ p.readregistrystringraw bbkey "BaseBoardSerialNumber" ≠ []) →
          (p.readregistrystringraw bbkey "BaseBoardSerial" ≠ lit "n/a" ∧ p.readregistrystringraw bbkey "BaseBoardSerial" ≠ []) →
          serial = p.readregistrystringraw bbkey "BaseBoardSerial") ∧
        (¬(p.readregistrystringraw bbkey "BaseBoardSerialNumber" ≠ lit "n/a" ∧ p.readregistrystringraw bbkey "BaseBoardSerialNumber" ≠ []) →
          ¬(p.readregistrystringraw bbkey "BaseBoardSerial" ≠ lit "n/a" ∧ p.readregistrystringraw bbkey "BaseBoardSerial" ≠ []) →
          p.getwmiproperty "Win32_BaseBoard" "SerialNumber" ≠ [] → serial = p.getwmiproperty "Win32_BaseBoard" "SerialNumber")) := by
  obtain ⟨pre, post, he⟩ := getbiosinfo_baseboard_block p data structures s hne hparse hs ht
  obtain ⟨serial, hshape, h1, h2⟩ := baseboarditems_shape p s
  rw [hshape] at he
  exact ⟨serial, pre, post, he, h1, fun hv =>
    ⟨(h2 hv).1, (h2 hv).2.1, fun a b => ((h2 hv).2.2 a b).1⟩⟩

theorem getbiosinfo_baseboard_serial_witness :
    ∃ serial pre post,
      getbiosinfo wmiplatform [2, 8, 0, 0, 0, 0, 0, 0, 0, 0] = some (pre ++ [⟨lit "baseboard", lit "manufacturer", towstring (getsmbiosstringat ⟨2, 8, [2, 8, 0, 0, 0, 0, 0, 0], []⟩ 0), lit ""⟩,
         ⟨lit "baseboard", lit "product", towstring (getsmbiosstringat ⟨2, 8, [2, 8, 0, 0, 0, 0, 0, 0], []⟩ 1), lit ""⟩,
         ⟨lit "baseboard", lit "version", towstring (getsmbiosstringat ⟨2, 8, [2, 8, 0, 0, 0, 0, 0, 0], []⟩ 2), lit ""⟩,
         ⟨lit "baseboard", lit "serialnumber", serial, lit ""⟩] ++ post) ∧
      serial = lit "WMI-9" :=
  Exists.imp (fun _ => Exists.imp fun _ => Exists.imp fun _ h =>
      And.intro h.1 ((h.2.2 (by decide)).2.2 (by decide) (by decide) (by decide)))
    (getbiosinfo_baseboard_serial wmiplatform [2, 8, 0, 0, 0, 0, 0, 0, 0, 0] [⟨2, 8, [2, 8, 0, 0, 0, 0, 0, 0], []⟩] ⟨2, 8, [2, 8, 0, 0, 0, 0, 0, 0], []⟩
      (by decide) (by decide) (by decide) (by decide))

/-- C14, the claim as stated fails: with the registry value
`BaseBoardSerialNumber` = "Default string" (invalid under the heuristic) and the
legacy value `BaseBoardSerial` = "BB-777" (valid), a type-2 record with an
invalid firmware serial gets the serial number "Default string". -/
theorem getbiosinfo_baseboard_placeholder_emitted :
    validserial (lit "Default string") = false ∧ validserial (lit "BB-777") = true ∧
      stubplatform.readregistrystringraw bbkey "BaseBoardSerialNumber" = lit "Default string" ∧
      stubplatform.readregistrystringraw bbkey "BaseBoardSerial" = lit "BB-777" ∧
      ∃ items, getbiosinfo stubplatform [2, 8, 0, 0, 0, 0, 0, 0, 0, 0] = some items ∧
        (⟨lit "baseboard", lit "serialnumber", lit "Default string", lit ""⟩ : hardwareitem)
          ∈ items :=
  ⟨by decide, by decide, by decide, by decide, _, rfl, by decide⟩

/-- C14 as amended: in the baseboard fallback chain a registry value counts as
absent only when it is empty or equal to "n/a". Any other value of
`BaseBoardSerialNumber`, a placeholder that the validity heuristic rejects
included, is emitted as the baseboard serial number, both for a
type-2 structure with an invalid firmware serial and in the registry-sourced
baseboard set, and no later source is consulted. -/
theorem getbiosinfo_baseboard_registry_asis (p : platform) (data : List Nat)
    (structures : List smbiosstructure) (s : smbiosstructure) (hne : data ≠ [])
    (hparse : parsesmbiosstructures data = some structures) (hs : s ∈ structures)
    (ht : s.type = 2) (hinv : validserial (getsmbiosstringat s 3) = false)
    (hreg : p.readregistrystringraw bbkey "BaseBoardSerialNumber" ≠ lit "n/a" ∧ p.readregistrystringraw bbkey "BaseBoardSerialNumber" ≠ []) :
    (∃ pre post, getbiosinfo p data = some (pre ++ [⟨lit "baseboard", lit "manufacturer", towstring (getsmbiosstringat s 0), lit ""⟩,
         ⟨lit "baseboard", lit "product", towstring (getsmbiosstringat s 1), lit ""⟩,
         ⟨lit "baseboard", lit "version", towstring (getsmbiosstringat s 2), lit ""⟩,
         ⟨lit "baseboard", lit "serialnumber", p.readregistrystringraw bbkey "BaseBoardSerialNumber", lit ""⟩] ++ post)) ∧
      registrybaseboard p =
        [⟨lit "baseboard", lit "manufacturer",
            p.readregistrystringraw bbkey "BaseBoardManufacturer", lit ""⟩,
         ⟨lit "baseboard", lit "product", p.readregistrystringraw bbkey "BaseBoardProduct", lit ""⟩,
         ⟨lit "baseboard", lit "version", p.readregistrystringraw bbkey "BaseBoardVersion", lit ""⟩,
         ⟨lit "baseboard", lit "serialnumber", p.readregistrystringraw bbkey "BaseBoardSerialNumber", lit ""⟩] := by
  constructor
  · obtain ⟨pre, post, he⟩ := getbiosinfo_baseboard_block p data structures s hne hparse hs ht
    obtain ⟨serial, hshape, _, h2⟩ := baseboarditems_shape p s
    obtain rfl := (h2 hinv).1 hreg
    rw [hshape] at he
    exact ⟨pre, post, he⟩
  · rw [registrybaseboard_shape, if_pos hreg]

theorem getbiosinfo_baseboard_registry_asis_witness :
    validserial (stubplatform.readregistrystringraw bbkey "BaseBoardSerialNumber") = false ∧
      ∃ pre post, getbiosinfo stubplatform [2, 8, 0, 0, 0, 0, 0, 0, 0, 0] = some (pre ++
        [⟨lit "baseboard", lit "manufacturer", towstring (getsmbiosstringat ⟨2, 8, [2, 8, 0, 0, 0, 0, 0, 0], []⟩ 0), lit ""⟩,
         ⟨lit "baseboard", lit "product", towstring (getsmbiosstringat ⟨2, 8, [2, 8, 0, 0, 0, 0, 0, 0], []⟩ 1), lit ""⟩,
         ⟨lit "baseboard", lit "version", towstring (getsmbiosstringat ⟨2, 8, [2, 8, 0, 0, 0, 0, 0, 0], []⟩ 2), lit ""⟩,
         ⟨lit "baseboard", lit "serialnumber", stubplatform.readregistrystringraw bbkey "BaseBoardSerialNumber", lit ""⟩] ++ post) :=
  ⟨by decide,
    (getbiosinfo_baseboard_registry_asis stubplatform [2, 8, 0, 0, 0, 0, 0, 0, 0, 0] [⟨2, 8, [2, 8, 0, 0, 0, 0, 0, 0], []⟩] ⟨2, 8, [2, 8, 0, 0, 0, 0, 0, 0], []⟩
      (by decide) (by decide) (by decide) (by decide) (by decide) (by decide)).1⟩

/-- The system product items read from the registry: three values as read, and
the serial from `SystemSerialNumber` when present, else whatever the management
query answers. -/
theorem registrysystemproduct_shape (p : platform) :
    registrysystemproduct p =
      [⟨lit "systemproduct", lit "manufacturer",
              p.readregistrystringraw bbkey "SystemManufacturer", lit ""⟩,
           ⟨lit "systemproduct", lit "productname",
              p.readregistrystringraw bbkey "SystemProductName", lit ""⟩,
           ⟨lit "systemproduct", lit "version",
              p.readregistrystringraw bbkey "SystemVersion", lit ""⟩,
           ⟨lit "systemproduct", lit "serialnumber",
              (if p.readregistrystringraw bbkey "SystemSerialNumber" ≠ lit "n/a" ∧ p.readregistrystringraw bbkey "SystemSerialNumber" ≠ [] then p.readregistrystringraw bbkey "SystemSerialNumber"
                else p.getwmiproperty "Win32_ComputerSystemProduct" "IdentifyingNumber"), lit ""⟩] := by
  unfold registrysystemproduct
  by_cases h1 : p.readregistrystringraw bbkey "SystemSerialNumber" = lit "n/a" ∨ p.readregistrystringraw bbkey "SystemSerialNumber" = []
  · have h1n : ¬(p.readregistrystringraw bbkey "SystemSerialNumber" ≠ lit "n/a" ∧ p.readregistrystringraw bbkey "SystemSerialNumber" ≠ []) := by
      intro h; rcases h1 with h1 | h1
      · exact h.1 h1
      · exact h.2 h1
    simp only [if_pos h1, if_neg h1n]
  · have h1p : p.readregistrystringraw bbkey "SystemSerialNumber" ≠ lit "n/a" ∧ p.readregistrystringraw bbkey "SystemSerialNumber" ≠ [] :=
      ⟨fun h => h1 (Or.inl h), fun h => h1 (Or.inr h)⟩
    simp only [if_neg h1, if_pos h1p]

theorem registrybaseboard_category (p : platform) :
    ∀ item ∈ registrybaseboard p, item.category = lit "baseboard" := by
  intro item h
  rw [registrybaseboard_shape] at h
  simp only [List.mem_cons, List.mem_singleton, List.mem_nil_iff, or_false] at h
  rcases h with rfl | rfl | rfl | rfl <;> rfl

theorem registrysystemproduct_category (p : platform) :
    ∀ item ∈ registrysystemproduct p, item.category = lit "systemproduct" := by
  intro item h
  rw [registrysystemproduct_shape] at h
  simp only [List.mem_cons, List.mem_singleton, List.mem_nil_iff, or_false] at h
  rcases h with rfl | rfl | rfl | rfl <;> rfl

/-- A payload that holds only an end-of-table record yields both registry
sets, the baseboard one first. -/
theorem getbiosinfo_end_record_only (p : platform) :
    getbiosinfo p [127, 4, 0, 0, 0, 0]
      = some (registrybaseboard p ++ registrysystemproduct p) := by
  obtain ⟨b0, b1, b2, b3, f0, f1, f2, f3, _, he⟩ :=
    getbiosinfo_decompose p [127, 4, 0, 0, 0, 0] [] (by decide) (by decide)
  obtain rfl := List.forall₂_nil_left_iff.mp f0
  obtain rfl := List.forall₂_nil_left_iff.mp f1
  obtain rfl := List.forall₂_nil_left_iff.mp f2
  obtain rfl := List.forall₂_nil_left_iff.mp f3
  rw [he]
  rfl

/-- C15: for a non-empty payload the result of `getbiosinfo` is the items
produced from the decoded structures, followed by the registry-sourced
baseboard set exactly when no type-2 structure was decoded, followed by the
registry-sourced system product set exactly when no type-1 structure was
decoded. Each set is four items (manufacturer, product or product name,
version, serial number) holding the registry reads, the serial being escalated
when it is "n/a" or empty: for the baseboard to the legacy registry value and
then the management query, for the system product to the management query. -/
theorem getbiosinfo_registry_fallback (p : platform) (data : List Nat)
    (structures : List smbiosstructure) (hne : data ≠ [])
    (hparse : parsesmbiosstructures data = some structures) :
    ∃ fw, firmwareitems p structures = some fw ∧
      getbiosinfo p data = some (fw
        ++ (if oftype 2 structures = [] then
          [⟨lit "baseboard", lit "manufacturer",
              p.readregistrystringraw bbkey "BaseBoardManufacturer", lit ""⟩,
           ⟨lit "baseboard", lit "product",
              p.readregistrystringraw bbkey "BaseBoardProduct", lit ""⟩,
           ⟨lit "baseboard", lit "version",
              p.readregistrystringraw bbkey "BaseBoardVersion", lit ""⟩,
           ⟨lit "baseboard", lit "serialnumber",
              (if p.readregistrystringraw bbkey "BaseBoardSerialNumber" ≠ lit "n/a" ∧ p.readregistrystringraw bbkey "BaseBoardSerialNumber" ≠ [] then p.readregistrystringraw bbkey "BaseBoardSerialNumber"
                else if p.readregistrystringraw bbkey "BaseBoardSerial" ≠ lit "n/a" ∧ p.readregistrystringraw bbkey "BaseBoardSerial" ≠ [] then p.readregistrystringraw bbkey "BaseBoardSerial"
                else p.getwmiproperty "Win32_BaseBoard" "SerialNumber"), lit ""⟩]
          else [])
        ++ (if oftype 1 structures = [] then
          [⟨lit "systemproduct", lit "manufacturer",
              p.readregistrystringraw bbkey "SystemManufacturer", lit ""⟩,
           ⟨lit "systemproduct", lit "productname",
              p.readregistrystringraw bbkey "SystemProductName", lit ""⟩,
           ⟨lit "systemproduct", lit "version",
              p.readregistrystringraw bbkey "SystemVersion", lit ""⟩,
           ⟨lit "systemproduct", lit "serialnumber",
              (if p.readregistrystringraw bbkey "SystemSerialNumber" ≠ lit "n/a" ∧ p.readregistrystringraw bbkey "SystemSerialNumber" ≠ [] then p.readregistrystringraw bbkey "SystemSerialNumber"
                else p.getwmiproperty "Win32_ComputerSystemProduct" "IdentifyingNumber"), lit ""⟩]
          else [])) := by
  obtain ⟨b0, b1, b2, b3, _, _, _, _, hfw, he⟩ :=
    getbiosinfo_decompose p data structures hne hparse
  refine ⟨_, hfw, ?_⟩
  rw [he, registrybaseboard_shape, registrysystemproduct_shape]

theorem getbiosinfo_registry_fallback_witness :
    oftype 2 [(⟨1, 8, [1, 8, 0, 0, 0, 0, 0, 0], []⟩ : smbiosstructure)] = [] ∧
      oftype 1 [(⟨1, 8, [1, 8, 0, 0, 0, 0, 0, 0], []⟩ : smbiosstructure)] ≠ [] ∧
      ∃ fw, firmwareitems stubplatform [⟨1, 8, [1, 8, 0, 0, 0, 0, 0, 0], []⟩] = some fw ∧
        getbiosinfo stubplatform [1, 8, 0, 0, 0, 0, 0, 0, 0, 0] = some (fw
          ++ (if oftype 2 [(⟨1, 8, [1, 8, 0, 0, 0, 0, 0, 0], []⟩ : smbiosstructure)] = [] then
            [⟨lit "baseboard", lit "manufacturer",
              stubplatform.readregistrystringraw bbkey "BaseBoardManufacturer", lit ""⟩,
           ⟨lit "baseboard", lit "product",
              stubplatform.readregistrystringraw bbkey "BaseBoardProduct", lit ""⟩,
           ⟨lit "baseboard", lit "version",
              stubplatform.readregistrystringraw bbkey "BaseBoardVersion", lit ""⟩,
           ⟨lit "baseboard", lit "serialnumber",
              (if stubplatform.readregistrystringraw bbkey "BaseBoardSerialNumber" ≠ lit "n/a" ∧ stubplatform.readregistrystringraw bbkey "BaseBoardSerialNumber" ≠ [] then stubplatform.readregistrystringraw bbkey "BaseBoardSerialNumber"
                else if stubplatform.readregistrystringraw bbkey "BaseBoardSerial" ≠ lit "n/a" ∧ stubplatform.readregistrystringraw bbkey "BaseBoardSerial" ≠ [] then stubplatform.readregistrystringraw bbkey "BaseBoardSerial"
                else stubplatform.getwmiproperty "Win32_BaseBoard" "SerialNumber"), lit ""⟩]
            else [])
          ++ (if oftype 1 [(⟨1, 8, [1, 8, 0, 0, 0, 0, 0, 0], []⟩ : smbiosstructure)] = [] then
            [⟨lit "systemproduct", lit "manufacturer",
              stubplatform.readregistrystringraw bbkey "SystemManufacturer", lit ""⟩,
           ⟨lit "systemproduct", lit "productname",
              stubplatform.readregistrystringraw bbkey "SystemProductName", lit ""⟩,
           ⟨lit "systemproduct", lit "version",
              stubplatform.readregistrystringraw bbkey "SystemVersion", lit ""⟩,
           ⟨lit "systemproduct", lit "serialnumber",
              (if stubplatform.readregistrystringraw bbkey "SystemSerialNumber" ≠ lit "n/a" ∧ stubplatform.readregistrystringraw bbkey "SystemSerialNumber" ≠ [] then stubplatform.readregistrystringraw bbkey "SystemSerialNumber"
                else stubplatform.getwmiproperty "Win32_ComputerSystemProduct" "IdentifyingNumber"), lit ""⟩]
            else [])) :=
  ⟨by decide, by decide,
    getbiosinfo_registry_fallback stubplatform [1, 8, 0, 0, 0, 0, 0, 0, 0, 0]
      [⟨1, 8, [1, 8, 0, 0, 0, 0, 0, 0], []⟩] (by decide) (by decide)⟩

/-- C16, the claim as stated fails: for the empty payload the result has no
system product item and no baseboard item. -/
theorem getbiosinfo_empty_payload_no_fallback :
    ∃ items, getbiosinfo stubplatform [] = some items ∧
      ∀ item ∈ items,
        item.category ≠ lit "systemproduct" ∧ item.category ≠ lit "baseboard" :=
  ⟨_, rfl, by decide⟩

/-- C16 as amended: when the payload is empty `getbiosinfo` does not fall back
to platform configuration, its result holds no system product item and no
baseboard item; the registry sets are produced only for a non-empty payload in
which no structure of the category was decoded, for instance a payload that
holds only an end-of-table record. -/
theorem getbiosinfo_empty_payload_skips_registry (p : platform) :
    (∀ items, getbiosinfo p [] = some items →
        ∀ item ∈ items,
          item.category ≠ lit "systemproduct" ∧ item.category ≠ lit "baseboard") ∧
      getbiosinfo p [127, 4, 0, 0, 0, 0]
        = some (registrybaseboard p ++ registrysystemproduct p) := by
  refine ⟨fun items h item hm => ?_, getbiosinfo_end_record_only p⟩
  have h2 : some [smbioserroritem] = some items := h
  obtain rfl := Option.some.inj h2
  obtain rfl := List.mem_singleton.mp hm
  decide

/-- C17: for the empty payload `getbiosinfo` returns exactly the one item
bios / error / "failed to retrieve smbios data" / "may require administrator
privileges"; for every non-empty payload it returns a non-empty list in which
no item has category "bios" and name "error". -/
theorem getbiosinfo_error_item (p : platform) :
    getbiosinfo p [] = some [⟨lit "bios", lit "error", lit "failed to retrieve smbios data", lit "may require administrator privileges"⟩] ∧
      ∀ data, data ≠ [] →
        ∃ items, getbiosinfo p data = some items ∧ items ≠ [] ∧
          ∀ item ∈ items, ¬(item.category = lit "bios" ∧ item.name = lit "error") := by
  refine ⟨rfl, fun data hne => ?_⟩
  obtain ⟨structures, hparse⟩ : ∃ r, parsesmbiosstructures data = some r := by
    obtain ⟨r, hr⟩ := parseloop_total data (data.length + 1) 0 [] (by omega)
    exact ⟨r, by simpa [parsesmbiosstructures] using hr⟩
  obtain ⟨b0, b1, b2, b3, f0, f1, f2, f3, _, he⟩ :=
    getbiosinfo_decompose p data structures hne hparse
  obtain ⟨c0, c1, c2, c3⟩ := blocks_categories p f0 f1 f2 f3
  obtain ⟨_, _, _, _, _, _, d7, d8, d9⟩ := lit_categories_distinct
  refine ⟨_, he, ?_, fun item hm hbad => ?_⟩
  · by_cases h2 : oftype 2 structures = []
    · rw [if_pos h2, registrybaseboard_shape]
      simp
    · obtain ⟨s, l1, hl⟩ := List.exists_cons_of_ne_nil h2
      rw [hl] at f2
      obtain ⟨b, l2, hb, _, rfl⟩ := List.forall₂_cons_left_iff.mp f2
      have hnil := (baseboarditems_category p s).1
      subst hb
      intro hcontra
      simp only [List.append_eq_nil, List.flatten_cons] at hcontra
      exact hnil hcontra.1.1.1.2.1
  · simp only [List.mem_append] at hm
    rcases hm with ((((hm | hm) | hm) | hm) | hm) | hm
    · exact (c0 item hm).2 hbad.2
    · exact d7 ((c1 item hm).symm.trans hbad.1)
    · exact d8 ((c2 item hm).symm.trans hbad.1)
    · exact d9 ((c3 item hm).symm.trans hbad.1)
    · split at hm
      · exact d8 ((registrybaseboard_category p item hm).symm.trans hbad.1)
      · simp at hm
    · split at hm
      · exact d7 ((registrysystemproduct_category p item hm).symm.trans hbad.1)
      · simp at hm

theorem getbiosinfo_error_item_witness :
    ∃ items, getbiosinfo stubplatform [0] = some items ∧ items ≠ [] ∧
      ∀ item ∈ items, ¬(item.category = lit "bios" ∧ item.name = lit "error") :=
  (getbiosinfo_error_item stubplatform).2 [0] (by decide)

/-- C18, the claim as stated fails: for a payload that holds only an
end-of-table record the first item is a baseboard item and the fifth one a
system product item, so a baseboard item precedes a system product item. -/
theorem getbiosinfo_baseboard_before_systemproduct :
    ∃ items, getbiosinfo stubplatform [127, 4, 0, 0, 0, 0] = some items ∧
      (items[0]?).map hardwareitem.category = some (lit "baseboard") ∧
      (items[4]?).map hardwareitem.category = some (lit "systemproduct") :=
  ⟨_, rfl, by decide, by decide⟩

/-- C18 as amended: for a non-empty payload the items produced from the table
come category after category, bios, system product, baseboard, chassis, and
inside a category block after block in the order of the structures in the
table; the registry-sourced sets come after all of them, the baseboard set
before the system product set. -/
theorem getbiosinfo_order (p : platform) (data : List Nat)
    (structures : List smbiosstructure) (hne : data ≠ [])
    (hparse : parsesmbiosstructures data = some structures) :
    ∃ b0 b1 b2 b3 rb rs,
      getbiosinfo p data
        = some (b0.flatten ++ b1.flatten ++ b2.flatten ++ b3.flatten ++ rb ++ rs) ∧
      List.Forall₂ (fun s b => b = biositems s) (oftype 0 structures) b0 ∧
      List.Forall₂ (fun s b => systemproductitems p s = some b) (oftype 1 structures) b1 ∧
      List.Forall₂ (fun s b => b = baseboarditems p s) (oftype 2 structures) b2 ∧
      List.Forall₂ (fun s b => b = chassisitems s) (oftype 3 structures) b3 ∧
      (∀ item ∈ b0.flatten, item.category = lit "bios") ∧
      (∀ item ∈ b1.flatten, item.category = lit "systemproduct") ∧
      (∀ item ∈ b2.flatten, item.category = lit "baseboard") ∧
      (∀ item ∈ b3.flatten, item.category = lit "chassis") ∧
      (∀ item ∈ rb, item.category = lit "baseboard") ∧
      (∀ item ∈ rs, item.category = lit "systemproduct") ∧
      (rb = [] ∨ (b2 = [] ∧ rb = registrybaseboard p)) ∧
      (rs = [] ∨ (b1 = [] ∧ rs = registrysystemproduct p)) := by
  obtain ⟨b0, b1, b2, b3, f0, f1, f2, f3, _, he⟩ :=
    getbiosinfo_decompose p data structures hne hparse
  obtain ⟨c0, c1, c2, c3⟩ := blocks_categories p f0 f1 f2 f3
  refine ⟨b0, b1, b2, b3, _, _, he, f0, f1, f2, f3, fun item h => (c0 item h).1, c1, c2, c3,
    ?_, ?_, ?_, ?_⟩
  · intro item hm
    split at hm
    · exact registrybaseboard_category p item hm
    · simp at hm
  · intro item hm
    split at hm
    · exact registrysystemproduct_category p item hm
    · simp at hm
  · by_cases h2 : oftype 2 structures = []
    · rw [h2] at f2
      exact Or.inr ⟨List.forall₂_nil_left_iff.mp f2, if_pos h2⟩
    · exact Or.inl (if_neg h2)
  · by_cases h1 : oftype 1 structures = []
    · rw [h1] at f1
      exact Or.inr ⟨List.forall₂_nil_left_iff.mp f1, if_pos h1⟩
    · exact Or.inl (if_neg h1)

theorem getbiosinfo_order_witness :
    ∃ (b0 b1 b2 b3 : List (List hardwareitem)) (rb rs : List hardwareitem),
      getbiosinfo stubplatform acmetable
        = some (b0.flatten ++ b1.flatten ++ b2.flatten ++ b3.flatten ++ rb ++ rs) ∧
      (∀ item ∈ b1.flatten, item.category = lit "systemproduct") ∧
      (∀ item ∈ rb, item.category = lit "baseboard") := by
  obtain ⟨b0, b1, b2, b3, rb, rs, he, _, _, _, _, _, h1, _, _, hrb, _⟩ :=
    getbiosinfo_order stubplatform acmetable
      [⟨1, 8, [1, 8, 0, 0, 1, 2, 0, 3], [lit "Acme", lit "X1", lit "Default string", [127, 4]]⟩]
      (by decide) (by decide)
  exact ⟨b0, b1, b2, b3, rb, rs, he, h1, hrb⟩

/-! ## The instance-path extractor: claim C19 -/

theorem findfirst_none (pred : Nat → Bool) :
    ∀ (s : List Nat) (pos : Nat), findfirst pred s pos = none → ∀ c ∈ s, pred c = false := by
  intro s
  induction s with
  | nil => intro pos _ c hc; simp at hc
  | cons a as ih =>
    intro pos h c hc
    rw [findfirst] at h
    by_cases ha : pred a = true
    · rw [if_pos ha] at h; exact absurd h (by simp)
    · rw [if_neg ha] at h
      rcases List.mem_cons.mp hc with rfl | hc
      · simpa using ha
      · exact ih (pos + 1) h c hc

/-- Where the first hit is: not before the start, with no hit in front of it,
and at the start only when the first character is a hit. -/
theorem findfirst_some (pred : Nat → Bool) :
    ∀ (s : List Nat) (pos i : Nat), findfirst pred s pos = some i →
      pos ≤ i ∧ (∀ c ∈ s.take (i - pos), pred c = false) ∧
        (i = pos → ∃ a as, s = a :: as ∧ pred a = true) := by
  intro s
  induction s with
  | nil => intro pos i h; simp [findfirst] at h
  | cons a as ih =>
    intro pos i h
    rw [findfirst] at h
    by_cases ha : pred a = true
    · rw [if_pos ha] at h
      obtain rfl := Option.some.inj h
      exact ⟨le_refl _, by simp, fun _ => ⟨a, as, rfl, ha⟩⟩
    · rw [if_neg ha] at h
      obtain ⟨hle, hno, _⟩ := ih (pos + 1) i h
      refine ⟨by omega, fun c hc => ?_, fun hi => by omega⟩
      have hsplit : i - pos = (i - (pos + 1)) + 1 := by omega
      rw [hsplit, List.take_succ_cons] at hc
      rcases List.mem_cons.mp hc with rfl | hc
      · simpa using ha
      · exact hno c hc

theorem trimset_subset (set s : List Nat) : ∀ c ∈ trimset set s, c ∈ s := by
  intro c hc
  unfold trimset at hc
  split at hc
  · exact List.mem_of_mem_drop (List.mem_of_mem_take hc)
  · exact hc

theorem not_mem_of_pred_false {l : List Nat}
    (h : ∀ c ∈ l, (c == 38) = false) : 38 ∉ l := by
  intro hm
  have := h 38 hm
  simp at this

/-- C19, the claim as stated fails: for the storage-class instance path
`USBSTOR\DISK\&1` the result is "&1", which contains `&`. -/
theorem extractserialfrominstance_keeps_leading_amp :
    extractserialfrominstance (lit "USBSTOR\\DISK\\&1") true = lit "&1" ∧
      38 ∈ extractserialfrominstance (lit "USBSTOR\\DISK\\&1") true := by
  decide

/-- C19 as amended: for a device of another USB class the result never
contains `&` (a tail that contains one is discarded); for a storage-class
device the tail is cut at its first `&` only when that is not its first
character, so the result contains no `&` whenever the tail does not begin with
one. -/
theorem extractserialfrominstance_no_amp (instanceid : List Nat) :
    38 ∉ extractserialfrominstance instanceid false ∧
      ((instancetail instanceid).head? ≠ some 38 →
        38 ∉ extractserialfrominstance instanceid true) := by
  constructor
  · unfold extractserialfrominstance
    by_cases he : instanceid = []
    · rw [if_pos he]; simp
    · rw [if_neg he]
      simp only [Bool.false_eq_true, if_false]
      by_cases hf : findfirst (fun c => c == 38) (instancetail instanceid) 0 ≠ none
      · rw [if_pos hf]; simp
      · rw [if_neg hf]
        have hnone : findfirst (fun c => c == 38) (instancetail instanceid) 0 = none := by
          simpa using hf
        have hno := not_mem_of_pred_false (findfirst_none _ _ 0 hnone)
        exact fun hm => hno (trimset_subset _ _ 38 hm)
  · intro hhead
    have hserial0 : 38 ∉ (match findfirst (fun c => c == 38) (instancetail instanceid) 0 with
        | some amp => if amp > 0 then (instancetail instanceid).take amp
            else instancetail instanceid
        | none => instancetail instanceid) := by
      cases hf : findfirst (fun c => c == 38) (instancetail instanceid) 0 with
      | none => exact not_mem_of_pred_false (findfirst_none _ _ 0 hf)
      | some amp =>
        obtain ⟨_, hno, hzero⟩ := findfirst_some _ _ 0 amp hf
        by_cases ha : amp > 0
        · simp only [if_pos ha]
          exact not_mem_of_pred_false (by simpa using hno)
        · exfalso
          obtain ⟨a, as, hcons, hpa⟩ := hzero (by omega)
          rw [hcons] at hhead
          have : a = 38 := by simpa using hpa
          exact hhead (by simp [this])
    unfold extractserialfrominstance
    by_cases he : instanceid = []
    · rw [if_pos he]; simp
    · rw [if_neg he]
      simp only [if_true]
      split
      · simp
      · split
        · simp
        · exact fun hm => hserial0 (trimset_subset _ _ 38 hm)

theorem extractserialfrominstance_no_amp_witness :
    (instancetail (lit "USBSTOR\\DISK\\12AB&0")).head? ≠ some 38 ∧
      extractserialfrominstance (lit "USBSTOR\\DISK\\12AB&0") true = lit "12AB" ∧
      38 ∉ extractserialfrominstance (lit "USBSTOR\\DISK\\12AB&0") true :=
  ⟨by decide, by decide,
    (extractserialfrominstance_no_amp (lit "USBSTOR\\DISK\\12AB&0")).2 (by decide)⟩

/-! ## The EDID descriptor readers: claim C20 -/

/-- The loop of `extractedidstring` computes: of the next `n` bytes, those
before the first line feed, the printable ones only, appended to `result`. -/
theorem edidchars_spec (edid : List Nat) (start : Nat) :
    ∀ (n i : Nat) (result : List Nat), start + i + n ≤ edid.length →
      edidchars edid start n i result = some (result ++
        (((edid.drop (start + i)).take n).takeWhile fun b => decide (b ≠ 10)).filter
          fun b => decide (32 ≤ b ∧ b ≤ 126)) := by
  intro n
  induction n with
  | zero => intro i result _; simp [edidchars]
  | succ n ih =>
    intro i result h
    have hlt : start + i < edid.length := by omega
    rw [edidchars, readbyte_of_lt hlt, Option.some_bind, List.drop_eq_getElem_cons hlt,
      List.take_succ_cons, List.takeWhile_cons]
    by_cases hb : edid[start + i] = 10
    · rw [if_pos hb]
      simp [hb]
    · rw [if_neg hb, ih (i + 1) _ (by omega)]
      have hd : decide (edid[start + i] ≠ 10) = true := by simpa using hb
      rw [hd, Nat.add_assoc]
      simp only [if_true, List.filter_cons]
      by_cases hp : 32 ≤ edid[start + i] ∧ edid[start + i] ≤ 126
      · have hpd : decide (32 ≤ edid[start + i] ∧ edid[start + i] ≤ 126) = true := by
          simpa using hp
        rw [if_pos hp, hpd]
        simp
      · have hpd : decide (32 ≤ edid[start + i] ∧ edid[start + i] ≤ 126) = false := by
          simpa using hp
        rw [if_neg hp, hpd]
        simp

theorem extractedidstring_spec (edid : List Nat) (start : Nat)
    (h : start + 13 ≤ edid.length) :
    extractedidstring edid start = some (trimset [32, 9] (edidtext_spec edid start)) := by
  unfold extractedidstring edidtext_spec
  rw [edidchars_spec edid start 13 0 [] (by omega)]
  simp

theorem edidtagat_spec (edid : List Nat) (offset tag : Nat) (h : offset + 3 < edid.length) :
    edidtagat edid offset tag = some (edidhastag_spec edid offset tag) := by
  have h0 : offset < edid.length := by omega
  have h1 : offset + 1 < edid.length := by omega
  have h2 : offset + 2 < edid.length := by omega
  unfold edidtagat edidhastag_spec
  rw [readbyte_of_lt h0, readbyte_of_lt h1, readbyte_of_lt h2, readbyte_of_lt h,
    List.getElem?_eq_getElem h0, List.getElem?_eq_getElem h1, List.getElem?_eq_getElem h2,
    List.getElem?_eq_getElem h]
  simp only [Option.some_bind, Option.some.injEq]
  by_cases e0 : edid[offset] = 0
  · by_cases e1 : edid[offset + 1] = 0
    · by_cases e2 : edid[offset + 2] = 0
      · simp [e0, e1, e2]
      · simp [e0, e1, e2]
    · simp [e0, e1]
  · simp [e0]

theorem edidscan_spec (edid : List Nat) (tag : Nat) :
    ∀ offsets : List Nat, (∀ o ∈ offsets, o + 18 ≤ edid.length) →
      edidscan edid tag offsets = some (
        match offsets.find? (fun o => edidhastag_spec edid o tag) with
        | some o => trimset [32, 9] (edidtext_spec edid (o + 5))
        | none => []) := by
  intro offsets
  induction offsets with
  | nil => intro _; rfl
  | cons o rest ih =>
    intro h
    have ho := h o (List.mem_cons_self _ _)
    rw [edidscan, edidtagat_spec edid o tag (by omega), Option.some_bind, List.find?_cons]
    cases hh : edidhastag_spec edid o tag with
    | true =>
      simp only [if_true]
      exact extractedidstring_spec edid (o + 5) (by omega)
    | false =>
      simp only [Bool.false_eq_true, if_false]
      exact ih (fun x hx => h x (List.mem_cons_of_mem _ hx))

theorem edidhastag_spec_take (edid : List Nat) (o tag : Nat) (h : o + 3 < 128) :
    edidhastag_spec (edid.take 128) o tag = edidhastag_spec edid o tag := by
  unfold edidhastag_spec
  rw [List.getElem?_take_of_lt (show o < 128 by omega),
    List.getElem?_take_of_lt (show o + 1 < 128 by omega),
    List.getElem?_take_of_lt (show o + 2 < 128 by omega),
    List.getElem?_take_of_lt (show o + 3 < 128 by omega)]

theorem edidtext_spec_take (edid : List Nat) (start : Nat) (h : start + 13 ≤ 128) :
    edidtext_spec (edid.take 128) start = edidtext_spec edid start := by
  unfold edidtext_spec
  rw [List.drop_take, List.take_take, Nat.min_eq_left (by omega)]

/-- The specified field depends on the first 128 bytes only. -/
theorem edidfield_spec_take (edid : List Nat) (tag : Nat) :
    edidfield_spec (edid.take 128) tag = edidfield_spec edid tag := by
  unfold edidfield_spec
  simp only [List.find?_cons, List.find?_nil,
    edidhastag_spec_take edid 54 tag (by decide), edidhastag_spec_take edid 72 tag (by decide),
    edidhastag_spec_take edid 90 tag (by decide), edidhastag_spec_take edid 108 tag (by decide)]
  cases edidhastag_spec edid 54 tag
  · cases edidhastag_spec edid 72 tag
    · cases edidhastag_spec edid 90 tag
      · cases edidhastag_spec edid 108 tag
        · rfl
        · show trimset [32, 9] (edidtext_spec (edid.take 128) (108 + 5)) = _
          rw [edidtext_spec_take edid (108 + 5) (by decide)]
      · show trimset [32, 9] (edidtext_spec (edid.take 128) (90 + 5)) = _
        rw [edidtext_spec_take edid (90 + 5) (by decide)]
    · show trimset [32, 9] (edidtext_spec (edid.take 128) (72 + 5)) = _
      rw [edidtext_spec_take edid (72 + 5) (by decide)]
  · show trimset [32, 9] (edidtext_spec (edid.take 128) (54 + 5)) = _
    rw [edidtext_spec_take edid (54 + 5) (by decide)]

theorem trimset_length_le (set s : List Nat) : (trimset set s).length ≤ s.length := by
  unfold trimset
  split
  · rw [List.length_take, List.length_drop]; omega
  · exact le_refl _

theorem edidtext_spec_chars (edid : List Nat) (start : Nat) :
    (edidtext_spec edid start).length ≤ 13 ∧
      ∀ c ∈ edidtext_spec edid start, 32 ≤ c ∧ c ≤ 126 ∧ ¬(65 ≤ c ∧ c ≤ 90) := by
  unfold edidtext_spec
  constructor
  · rw [List.length_map]
    refine le_trans (List.length_filter_le _ _) (le_trans (List.takeWhile_sublist _).length_le ?_)
    rw [List.length_take]
    omega
  · intro c hc
    obtain ⟨b, hb, rfl⟩ := List.mem_map.mp hc
    have hp := (List.mem_filter.mp hb).2
    have hp2 : 32 ≤ b ∧ b ≤ 126 := by simpa using hp
    unfold tolower
    split <;> omega

/-- C20: with `length` bytes in the buffer, `getmonitornamefromedid` (tag
`00 00 00 FC`) and `getmonitorserialfromedid` (tag `00 00 00 FF`) return the
empty string when `length < 128`; otherwise they return the text of the first
descriptor among the offsets 54, 72, 90, 108 that carries the tag, read from
`offset + 5` (at most 13 characters, up to the first `0x0A`, bytes 32..126
only, lowercased, then trimmed), and the empty string when no descriptor
carries it. They give the same answer on the first 128 bytes alone, so no
index of 128 or more is read. -/
theorem getmonitorfromedid_spec (edid : List Nat) (length : Nat)
    (hbuf : length ≤ edid.length) :
    (length < 128 → getmonitornamefromedid edid length = some [] ∧
        getmonitorserialfromedid edid length = some []) ∧
      (128 ≤ length →
        getmonitornamefromedid edid length = some (edidfield_spec edid 0xFC) ∧
        getmonitorserialfromedid edid length = some (edidfield_spec edid 0xFF) ∧
        getmonitornamefromedid (edid.take 128) length = some (edidfield_spec edid 0xFC) ∧
        getmonitorserialfromedid (edid.take 128) length = some (edidfield_spec edid 0xFF)) ∧
      (∀ tag, (edidfield_spec edid tag).length ≤ 13 ∧
        ∀ c ∈ edidfield_spec edid tag, 32 ≤ c ∧ c ≤ 126 ∧ ¬(65 ≤ c ∧ c ≤ 90)) := by
  have hscan : ∀ (e : List Nat) (tag : Nat), 128 ≤ e.length →
      edidscan e tag [54, 72, 90, 108] = some (edidfield_spec e tag) := by
    intro e tag he
    rw [edidscan_spec e tag [54, 72, 90, 108] (by
      intro o ho
      simp only [List.mem_cons, List.mem_singleton, List.mem_nil_iff, or_false] at ho
      rcases ho with rfl | rfl | rfl | rfl <;> omega)]
    rfl
  refine ⟨fun h => ?_, fun h => ?_, fun tag => ?_⟩
  · unfold getmonitornamefromedid getmonitorserialfromedid
    rw [if_pos h, if_pos h]
    exact ⟨rfl, rfl⟩
  · have htake : 128 ≤ (edid.take 128).length := by
      rw [List.length_take]; omega
    unfold getmonitornamefromedid getmonitorserialfromedid
    simp only [if_neg (show ¬length < 128 by omega)]
    rw [hscan edid _ (by omega), hscan edid _ (by omega),
      hscan _ _ htake, hscan _ _ htake, edidfield_spec_take, edidfield_spec_take]
    exact ⟨rfl, rfl, rfl, rfl⟩
  · unfold edidfield_spec
    split
    · rename_i o _
      obtain ⟨hl, hc⟩ := edidtext_spec_chars edid (o + 5)
      exact ⟨le_trans (trimset_length_le _ _) hl,
        fun c hm => hc c (trimset_subset _ _ c hm)⟩
    · exact ⟨by simp, fun c hm => by simp at hm⟩

set_option maxRecDepth 8000 in
theorem getmonitorfromedid_spec_witness :
    128 ≤ sampleedid.length ∧
      getmonitornamefromedid sampleedid 128 = some (lit "dell u24") ∧
      getmonitorserialfromedid sampleedid 128 = some (lit "ab 12") ∧
      getmonitornamefromedid sampleedid 128 = some (edidfield_spec sampleedid 0xFC) :=
  ⟨by decide, by decide, by decide,
    ((getmonitorfromedid_spec sampleedid 128 (by decide)).2.1 (by decide)).1⟩

/-! ## Trimming of EDID text: claim C21 -/

set_option maxRecDepth 8000 in
/-- C21 (defect of the code): a descriptor text of 13 spaces is returned as 13
spaces, not as the empty string. The trimming finds no character other than
space and tab, so both searches give `npos` and the untrimmed text is
returned; `getmonitorserialfromedid` hands it on as a non-empty serial. -/
theorem extractedidstring_keeps_blank_text :
    extractedidstring (List.replicate 13 32) 0 = some (List.replicate 13 32) ∧
      getmonitorserialfromedid blankedid 128 = some (List.replicate 13 32) ∧
      getmonitorserialfromedid blankedid 128 ≠ some [] := by
  decide

/-! ## Payload extraction: claim C22 -/

theorem toint32_of_lt {n : Nat} (h : n < 2 ^ 31) : toint32 n = (n : Int) := by
  unfold toint32
  have h1 : n % 2 ^ 32 = n := Nat.mod_eq_of_lt (by omega)
  rw [h1, if_pos h]

theorem take_take_append (k m : Nat) (x : List Nat) (h : k ≤ m) :
    ∃ rest, x.take m = x.take k ++ rest := by
  refine ⟨(x.take m).drop k, ?_⟩
  have h1 : (x.take m).take k = x.take k := by
    rw [List.take_take, Nat.min_eq_left h]
  rw [← h1, List.take_append_drop]

/-- C22: with `written` bytes returned into a buffer of `totalsize` bytes, the
payload is empty when fewer than 8 bytes were returned or the declared length
(signed little-endian word at offset 4) is not positive; otherwise it is the
bytes from offset 8 on, `min(declared length, written - 8)` of them. It is
always the beginning of the returned bytes after the 8-byte header and never
longer than a positive declared length. -/
theorem getsmbiosdata_payload (totalsize written : Nat) (buffer : List Nat)
    (hbuf : buffer.length = totalsize) (hw : written ≤ totalsize)
    (hsize : totalsize < 2 ^ 31) :
    ∃ payload, getsmbiosdata totalsize written buffer = some payload ∧
      ((totalsize < 8 ∨ written < 8 ∨ declaredlength_spec buffer ≤ 0) → payload = []) ∧
      (¬(totalsize < 8 ∨ written < 8 ∨ declaredlength_spec buffer ≤ 0) →
        payload = (buffer.drop 8).take
          (min (declaredlength_spec buffer).toNat (written - 8))) ∧
      (∃ rest, (buffer.take written).drop 8 = payload ++ rest) ∧
      (payload = [] ∨ (payload.length : Int) ≤ declaredlength_spec buffer) := by
  have hprefix_nil : ∃ rest, (buffer.take written).drop 8 = ([] : List Nat) ++ rest :=
    ⟨_, (List.nil_append _).symm⟩
  by_cases ht : totalsize < 8
  · refine ⟨[], ?_, fun _ => rfl, fun h => absurd (Or.inl ht) h, hprefix_nil, Or.inl rfl⟩
    unfold getsmbiosdata
    rw [if_pos ht]
  by_cases hwr : written < 8
  · refine ⟨[], ?_, fun _ => rfl, fun h => absurd (Or.inr (Or.inl hwr)) h, hprefix_nil,
      Or.inl rfl⟩
    unfold getsmbiosdata
    rw [if_neg ht, if_pos hwr]
  have hword : ((buffer.drop 4).take 4).length = 4 := by
    rw [List.length_take, List.length_drop]; omega
  have hread : readrange buffer 4 4 = some ((buffer.drop 4).take 4) :=
    readrange_of_le (by omega)
  unfold getsmbiosdata declaredlength_spec
  rw [if_neg ht, if_neg hwr, hread]
  generalize (buffer.drop 4).take 4 = w at hword
  obtain ⟨b0, w1, rfl, hw1⟩ := exists_cons_of_length_succ w hword
  obtain ⟨b1, w2, rfl, hw2⟩ := exists_cons_of_length_succ w1 hw1
  obtain ⟨b2, w3, rfl, hw3⟩ := exists_cons_of_length_succ w2 hw2
  obtain ⟨b3, w4, rfl, hw4⟩ := exists_cons_of_length_succ w3 hw3
  obtain rfl : w4 = [] := List.length_eq_zero.mp hw4
  simp only []
  generalize toint32 (b0 + 256 * b1 + 65536 * b2 + 16777216 * b3) = declared
  rw [toint32_of_lt (show written < 2 ^ 31 by omega)]
  by_cases hd : declared ≤ 0
  · refine ⟨[], by rw [if_pos hd], fun _ => rfl,
      fun h => absurd (Or.inr (Or.inr hd)) h, hprefix_nil, Or.inl rfl⟩
  · rw [if_neg hd]
    by_cases hc : min declared ((written : Int) - 8) ≤ 0
    · have hw8 : written - 8 = 0 := by omega
      refine ⟨[], by rw [if_pos hc], fun _ => rfl, fun _ => ?_, hprefix_nil, Or.inl rfl⟩
      rw [hw8, Nat.min_zero, List.take_zero]
    · have hk : (min declared ((written : Int) - 8)).toNat = min declared.toNat (written - 8) := by
        omega
      rw [if_neg hc, hk, readrange_of_le (by omega)]
      refine ⟨_, rfl, fun h => ?_, fun _ => rfl, ?_, Or.inr ?_⟩
      · rcases h with h | h | h
        · exact absurd h ht
        · exact absurd h hwr
        · exact absurd h hd
      · rw [List.drop_take]
        exact take_take_append _ _ _ (Nat.min_le_right _ _)
      · rw [List.length_take, List.length_drop]
        omega

theorem getsmbiosdata_payload_witness :
    declaredlength_spec [82, 83, 77, 66, 200, 0, 0, 0, 9, 8, 7, 6] = 200 ∧
      ∃ payload, getsmbiosdata 12 12 [82, 83, 77, 66, 200, 0, 0, 0, 9, 8, 7, 6] = some payload ∧
        payload = [9, 8, 7, 6] := by
  obtain ⟨payload, he, _, h2, _⟩ :=
    getsmbiosdata_payload 12 12 [82, 83, 77, 66, 200, 0, 0, 0, 9, 8, 7, 6] (by decide)
      (by decide) (by decide)
  exact ⟨by decide, payload, he, (h2 (by decide)).trans (by decide)⟩

/-! ## What the decoder returns: claims C25 and C26 -/

/-- The innermost loop appends bytes other than zero and never moves the
cursor backwards. -/
theorem readstring_chars (data : List Nat) :
    ∀ (fuel so : Nat) (str str1 : List Nat) (so1 : Nat),
      readstring fuel data so str = some (str1, so1) →
      so ≤ so1 ∧ ∃ added, str1 = str ++ added ∧ 0 ∉ added := by
  intro fuel
  induction fuel with
  | zero => intro so str str1 so1 h; simp [readstring] at h
  | succ n ih =>
    intro so str str1 so1 h
    rw [readstring] at h
    by_cases hlt : so < data.length
    · rw [if_pos hlt, readbyte_of_lt hlt, Option.some_bind] at h
      by_cases hb : data[so] ≠ 0
      · rw [if_pos hb] at h
        obtain ⟨hle, added, hadd, hz⟩ := ih (so + 1) (str ++ [data[so]]) str1 so1 h
        refine ⟨by omega, data[so] :: added, by rw [hadd]; simp, ?_⟩
        intro hm
        rcases List.mem_cons.mp hm with h0 | h0
        · exact hb h0.symm
        · exact hz h0
      · rw [if_neg hb] at h
        obtain ⟨rfl, rfl⟩ := Prod.mk.inj (Option.some.inj h)
        exact ⟨le_refl _, [], by simp, by simp⟩
    · rw [if_neg hlt] at h
      obtain ⟨rfl, rfl⟩ := Prod.mk.inj (Option.some.inj h)
      exact ⟨le_refl _, [], by simp, by simp⟩

/-- The string-table loop appends only strings that are non-empty and free of
zero bytes, and never moves the cursor backwards. -/
theorem walkstrings_strings (data : List Nat) :
    ∀ (fuel so : Nat) (strs strs1 : List (List Nat)) (so1 : Nat),
      walkstrings fuel data so strs = some (strs1, so1) →
      so ≤ so1 ∧ ∃ added, strs1 = strs ++ added ∧ ∀ x ∈ added, x ≠ [] ∧ 0 ∉ x := by
  intro fuel
  induction fuel with
  | zero => intro so strs strs1 so1 h; simp [walkstrings] at h
  | succ n ih =>
    intro so strs strs1 so1 h
    rw [walkstrings] at h
    by_cases hlt : so < data.length - 1
    · rw [if_pos hlt] at h
      cases hd : doublenull data so with
      | none => rw [hd] at h; exact absurd h (by simp)
      | some t =>
        rw [hd, Option.some_bind] at h
        cases t with
        | true =>
          rw [if_pos rfl] at h
          obtain ⟨rfl, rfl⟩ := Prod.mk.inj (Option.some.inj h)
          exact ⟨by omega, [], by simp, by simp⟩
        | false =>
          rw [if_neg (by decide)] at h
          cases hr : readstring (data.length + 1) data so [] with
          | none => rw [hr] at h; exact absurd h (by simp)
          | some r =>
            obtain ⟨str, o1⟩ := r
            rw [hr, Option.some_bind] at h
            obtain ⟨hle, added, hadd, hz⟩ := readstring_chars data _ so [] str o1 hr
            have hstr : 0 ∉ str := by
              rw [hadd, List.nil_append]; exact hz
            have hnew : ∃ new, (if str ≠ [] then strs ++ [str] else strs) = strs ++ new ∧
                ∀ x ∈ new, x ≠ [] ∧ 0 ∉ x := by
              by_cases hs : str ≠ []
              · refine ⟨[str], by rw [if_pos hs], fun x hx => ?_⟩
                obtain rfl := List.mem_singleton.mp hx
                exact ⟨hs, hstr⟩
              · exact ⟨[], by rw [if_neg hs, List.append_nil], by simp⟩
            obtain ⟨new, hnew1, hnew2⟩ := hnew
            simp only [] at h
            by_cases hge : o1 + 1 ≥ data.length
            · rw [if_pos hge] at h
              obtain ⟨h1, h2⟩ := Prod.mk.inj (Option.some.inj h)
              subst h2
              exact ⟨by omega, new, by rw [← h1, hnew1], hnew2⟩
            · rw [if_neg hge] at h
              obtain ⟨hle2, added2, hadd2, hz2⟩ := ih (o1 + 1) _ strs1 so1 h
              refine ⟨by omega, new ++ added2, by rw [hadd2, hnew1, List.append_assoc], ?_⟩
              intro x hx
              rcases List.mem_append.mp hx with hx | hx
              · exact hnew2 x hx
              · exact hz2 x hx
    · rw [if_neg hlt] at h
      obtain ⟨rfl, rfl⟩ := Prod.mk.inj (Option.some.inj h)
      exact ⟨le_refl _, [], by simp, by simp⟩

/-- Whatever the outer loop returns extends the structures collected so far by
structures that were each read at some offset from the cursor on, and every one
of them takes at least 4 bytes of what is left of the buffer. -/
theorem parseloop_result (data : List Nat) :
    ∀ (fuel offset : Nat) (acc r : List smbiosstructure),
      parseloop fuel data offset acc = some r →
      ∃ added, r = acc ++ added ∧ (∀ s ∈ added, ∃ o, offset ≤ o ∧ decodedat data o s) ∧
        4 * added.length ≤ data.length - offset := by
  intro fuel
  induction fuel with
  | zero => intro offset acc r h; simp [parseloop] at h
  | succ n ih =>
    intro offset acc r h
    rw [parseloop] at h
    by_cases hlt : offset + 4 < data.length
    · have h0 : offset < data.length := by omega
      have h1 : offset + 1 < data.length := by omega
      rw [if_pos hlt, readbyte_of_lt h0, Option.some_bind, readbyte_of_lt h1,
        Option.some_bind] at h
      by_cases ht : data[offset] = 127
      · rw [if_pos ht] at h
        obtain rfl := Option.some.inj h
        exact ⟨[], by simp, by simp, by simp⟩
      · rw [if_neg ht] at h
        by_cases hl : data[offset + 1] < 4 ∨ offset + data[offset + 1] > data.length
        · rw [if_pos hl] at h
          obtain rfl := Option.some.inj h
          exact ⟨[], by simp, by simp, by simp⟩
        · rw [if_neg hl, readrange_of_le (by omega), Option.some_bind] at h
          cases hw : walkstrings (data.length + 1) data (offset + data[offset + 1]) [] with
          | none => rw [hw] at h; exact absurd h (by simp)
          | some w =>
            obtain ⟨strs, so⟩ := w
            rw [hw, Option.some_bind] at h
            obtain ⟨hle, added, hadd, hz⟩ := walkstrings_strings data _ _ [] strs so hw
            have hdec : decodedat data offset
                ⟨data[offset], data[offset + 1], (data.drop offset).take data[offset + 1],
                  strs⟩ := by
              refine ⟨ht, ?_, ?_, List.getElem?_eq_getElem h0,
                List.getElem?_eq_getElem h1, rfl, ?_⟩
              · show 4 ≤ data[offset + 1]
                omega
              · show offset + data[offset + 1] ≤ data.length
                omega
              intro str hstr
              rw [hadd, List.nil_append] at hstr
              exact hz str hstr
            simp only [] at h
            by_cases hge : so ≥ data.length
            · rw [if_pos hge] at h
              obtain rfl := Option.some.inj h
              refine ⟨[_], rfl, fun s hs => ?_, ?_⟩
              swap
              · show 4 * 1 ≤ data.length - offset
                omega
              obtain rfl := List.mem_singleton.mp hs
              exact ⟨offset, le_refl _, hdec⟩
            · rw [if_neg hge] at h
              obtain ⟨added2, hr, hall, hcount⟩ := ih so _ r h
              refine ⟨⟨data[offset], data[offset + 1],
                (data.drop offset).take data[offset + 1], strs⟩ :: added2,
                by rw [hr]; simp, fun s hs => ?_, ?_⟩
              · rcases List.mem_cons.mp hs with rfl | hs
                · exact ⟨offset, le_refl _, hdec⟩
                · obtain ⟨o, ho, hd⟩ := hall s hs
                  exact ⟨o, by omega, hd⟩
              · simp only [List.length_cons]
                omega
    · rw [if_neg hlt] at h
      obtain rfl := Option.some.inj h
      exact ⟨[], by simp, by simp, by simp⟩

theorem decodedat_data {data : List Nat} {o : Nat} {s : smbiosstructure}
    (h : decodedat data o s) :
    s.data.length = s.length ∧ s.data[0]? = some s.type ∧ s.data[1]? = some s.length := by
  obtain ⟨_, h4, hend, ht, hl, hd, _⟩ := h
  rw [hd]
  refine ⟨?_, ?_, ?_⟩
  · rw [List.length_take, List.length_drop]; omega
  · rw [List.getElem?_take_of_lt (by omega), List.getElem?_drop]
    exact ht
  · rw [List.getElem?_take_of_lt (by omega), List.getElem?_drop]
    exact hl

/-- The decoder returns, and everything it returns was read at some offset. -/
theorem parsesmbiosstructures_decoded (data : List Nat) :
    ∃ structures, parsesmbiosstructures data = some structures ∧
      (∀ s ∈ structures, ∃ o, decodedat data o s) ∧ 4 * structures.length ≤ data.length := by
  obtain ⟨r, hr⟩ := parseloop_total data (data.length + 1) 0 [] (by omega)
  obtain ⟨added, hadd, hall, hcount⟩ := parseloop_result data _ 0 [] _ hr
  rw [List.nil_append] at hadd hr
  subst hadd
  refine ⟨r, hr, fun s hs => ?_, by omega⟩
  obtain ⟨o, _, hd⟩ := hall s hs
  exact ⟨o, hd⟩

/-- C25: on every buffer the decoder returns, and every structure it returns
has a type other than 127, a length of at least 4, as many data bytes as its
length says, the type byte and the length byte as its first two data bytes,
data equal to the input bytes `[o, o + length)` for the offset `o` at which it
was read, and only strings that are non-empty and free of zero bytes. -/
theorem parsesmbiosstructures_invariant (data : List Nat) :
    ∃ structures, parsesmbiosstructures data = some structures ∧
      ∀ s ∈ structures,
        s.type ≠ 127 ∧ 4 ≤ s.length ∧ s.data.length = s.length ∧
        s.data[0]? = some s.type ∧ s.data[1]? = some s.length ∧
        (∃ o, o + s.length ≤ data.length ∧ data[o]? = some s.type ∧
          data[o + 1]? = some s.length ∧ s.data = (data.drop o).take s.length) ∧
        ∀ str ∈ s.strings, str ≠ [] ∧ 0 ∉ str := by
  obtain ⟨structures, hp, hall, _⟩ := parsesmbiosstructures_decoded data
  refine ⟨structures, hp, fun s hs => ?_⟩
  obtain ⟨o, hd⟩ := hall s hs
  obtain ⟨hlen, hd0, hd1⟩ := decodedat_data hd
  obtain ⟨h1, h2, h3, h4, h5, h6, h7⟩ := hd
  exact ⟨h1, h2, hlen, hd0, hd1, ⟨o, h3, h4, h5, h6⟩, h7⟩

/-- Any iteration budget above `end - offset` gives the same result: the outer
loop has finished before the budget runs out. -/
theorem parseloop_fuel (data : List Nat) :
    ∀ (fuel fuel2 offset : Nat) (acc : List smbiosstructure),
      data.length - offset < fuel → data.length - offset < fuel2 →
      parseloop fuel data offset acc = parseloop fuel2 data offset acc := by
  intro fuel
  induction fuel with
  | zero => intro fuel2 offset acc h; omega
  | succ n ih =>
    intro fuel2 offset acc h h2
    obtain ⟨m, rfl⟩ : ∃ m, fuel2 = m + 1 := ⟨fuel2 - 1, by omega⟩
    rw [parseloop]
    conv_rhs => rw [parseloop]
    by_cases hlt : offset + 4 < data.length
    · have h0 : offset < data.length := by omega
      have h1 : offset + 1 < data.length := by omega
      simp only [if_pos hlt, readbyte_of_lt h0, readbyte_of_lt h1, Option.some_bind]
      by_cases ht : data[offset] = 127
      · simp only [if_pos ht]
      · by_cases hl : data[offset + 1] < 4 ∨ offset + data[offset + 1] > data.length
        · simp only [if_neg ht, if_pos hl]
        · simp only [if_neg ht, if_neg hl]
          rw [readrange_of_le (by omega)]
          simp only [Option.some_bind]
          cases hw : walkstrings (data.length + 1) data (offset + data[offset + 1]) [] with
          | none => rfl
          | some w =>
            obtain ⟨strs, so⟩ := w
            obtain ⟨hle, _⟩ := walkstrings_strings data _ _ [] strs so hw
            simp only [Option.some_bind]
            by_cases hge : so ≥ data.length
            · simp only [if_pos hge]
            · simp only [if_neg hge]
              exact ih m so _ (by omega) (by omega)
    · simp only [if_neg hlt]

/-- One iteration of the string-table loop that is entered leaves the cursor at
least one byte further on, whether the loop ends there or goes on. -/
theorem walkstrings_step (data : List Nat) (fuel so : Nat) (strs : List (List Nat))
    (h : so < data.length - 1) :
    ∃ strs1 so1, so + 1 ≤ so1 ∧
      (walkstrings (fuel + 1) data so strs = some (strs1, so1) ∨
        walkstrings (fuel + 1) data so strs = walkstrings fuel data so1 strs1) := by
  rw [walkstrings, if_pos h]
  obtain ⟨t, ht⟩ := doublenull_of_lt data so (by omega)
  rw [ht, Option.some_bind]
  cases t with
  | true => exact ⟨strs, so + 2, by omega, Or.inl (by rw [if_pos rfl])⟩
  | false =>
    obtain ⟨s1, o1, he, hle⟩ := readstring_total data (data.length + 1) so [] (by omega)
    rw [if_neg (by decide), he, Option.some_bind]
    simp only []
    by_cases hge : o1 + 1 ≥ data.length
    · exact ⟨_, o1 + 1, by omega, Or.inl (by rw [if_pos hge])⟩
    · exact ⟨_, o1 + 1, by omega, Or.inr (by rw [if_neg hge])⟩

/-- One iteration of the outer loop that emits a structure leaves the cursor at
least the length of the structure (so at least 4 bytes) further on. -/
theorem parseloop_step (data : List Nat) (fuel offset t l : Nat)
    (acc : List smbiosstructure) (hrem : offset + 4 < data.length)
    (ht : data[offset]? = some t) (hl : data[offset + 1]? = some l) (ht127 : t ≠ 127)
    (hl4 : 4 ≤ l) (hend : offset + l ≤ data.length) :
    ∃ strs so, offset + l ≤ so ∧
      (parseloop (fuel + 1) data offset acc
          = some (acc ++ [⟨t, l, (data.drop offset).take l, strs⟩]) ∨
        parseloop (fuel + 1) data offset acc
          = parseloop fuel data so (acc ++ [⟨t, l, (data.drop offset).take l, strs⟩])) := by
  have h0 : offset < data.length := by omega
  have h1 : offset + 1 < data.length := by omega
  rw [List.getElem?_eq_getElem h0] at ht
  rw [List.getElem?_eq_getElem h1] at hl
  have ht2 : data[offset] = t := Option.some.inj ht
  have hl2 : data[offset + 1] = l := Option.some.inj hl
  rw [parseloop, if_pos hrem, readbyte_of_lt h0, readbyte_of_lt h1]
  simp only [Option.some_bind]
  rw [ht2, hl2, if_neg ht127, if_neg (by omega), readrange_of_le hend]
  obtain ⟨s1, o1, he, hle⟩ :=
    walkstrings_total data (data.length + 1) (offset + l) [] (by omega)
  rw [he]
  simp only [Option.some_bind]
  by_cases hge : o1 ≥ data.length
  · exact ⟨s1, o1, hle, Or.inl (by rw [if_pos hge])⟩
  · exact ⟨s1, o1, hle, Or.inr (by rw [if_neg hge])⟩

/-- C26: the decoder terminates on every buffer: every iteration budget above
the buffer length gives the same result, the one `parsesmbiosstructures`
returns, and that result has at most `len / 4` structures. An outer iteration
that emits a structure moves the cursor on by at least the length of the
structure, which is at least 4; an iteration of the string walk moves
`stringoffset` on by at least 1. -/
theorem parsesmbiosstructures_terminates (data : List Nat) :
    (∃ r, (∀ fuel, data.length < fuel → parseloop fuel data 0 [] = some r) ∧
        parsesmbiosstructures data = some r ∧ r.length ≤ data.length / 4) ∧
      (∀ (fuel offset t l : Nat) (acc : List smbiosstructure),
        offset + 4 < data.length → data[offset]? = some t → data[offset + 1]? = some l →
        t ≠ 127 → 4 ≤ l → offset + l ≤ data.length →
        ∃ strs so, offset + 4 ≤ so ∧ offset + l ≤ so ∧
          (parseloop (fuel + 1) data offset acc
              = some (acc ++ [⟨t, l, (data.drop offset).take l, strs⟩]) ∨
            parseloop (fuel + 1) data offset acc
              = parseloop fuel data so (acc ++ [⟨t, l, (data.drop offset).take l, strs⟩]))) ∧
      (∀ (fuel so : Nat) (strs : List (List Nat)), so < data.length - 1 →
        ∃ strs1 so1, so + 1 ≤ so1 ∧
          (walkstrings (fuel + 1) data so strs = some (strs1, so1) ∨
            walkstrings (fuel + 1) data so strs = walkstrings fuel data so1 strs1)) := by
  refine ⟨?_, ?_, fun fuel so strs h => walkstrings_step data fuel so strs h⟩
  · obtain ⟨r, hp, _, hcount⟩ := parsesmbiosstructures_decoded data
    refine ⟨r, fun fuel hf => ?_, hp, by omega⟩
    rw [parseloop_fuel data fuel (data.length + 1) 0 [] (by omega) (by omega)]
    exact hp
  · intro fuel offset t l acc hrem ht hl ht127 hl4 hend
    obtain ⟨strs, so, hso, hor⟩ := parseloop_step data fuel offset t l acc hrem ht hl ht127 hl4 hend
    exact ⟨strs, so, by omega, hso, hor⟩

theorem parsesmbiosstructures_terminates_witness :
    (∃ r, parseloop 100 [1, 4, 0, 0, 65, 0, 0, 127, 4, 0, 0, 0, 0] 0 [] = some r ∧
        r.length ≤ [1, 4, 0, 0, 65, 0, 0, 127, 4, 0, 0, 0, 0].length / 4) ∧
      ∃ strs1 so1, 4 + 1 ≤ so1 ∧
        (walkstrings (13 + 1) [1, 4, 0, 0, 65, 0, 0, 127, 4, 0, 0, 0, 0] 4 [] = some (strs1, so1) ∨
          walkstrings (13 + 1) [1, 4, 0, 0, 65, 0, 0, 127, 4, 0, 0, 0, 0] 4 []
            = walkstrings 13 [1, 4, 0, 0, 65, 0, 0, 127, 4, 0, 0, 0, 0] so1 strs1) := by
  obtain ⟨⟨r, hfuel, _, hcount⟩, _, hwalk⟩ :=
    parsesmbiosstructures_terminates [1, 4, 0, 0, 65, 0, 0, 127, 4, 0, 0, 0, 0]
  exact ⟨⟨r, hfuel 100 (by decide), hcount⟩, hwalk 13 4 [] (by decide)⟩

/-! ## System product and chassis items: claims C23 and C24 -/

end hardwareinfo
